import Mathlib

/-!
# HALucinator interrupt controller (`hw/avatar/irq_controller.c`)

A shallow embedding of the virtual interrupt controller: the register file
(`status_reg`, `irq_regs`), the update engine (`update_irq`), the MMIO callbacks
(`halucinator_irqc_read`, `halucinator_irqc_write`), the GPIO input handler
(`irq_handler`) and the four debug property setters.

C integers are natural numbers or integers with the conversions of the C
expression written out (`int32`, `uint32`, `uint64`); a memory access outside
the allocated line storage, a null dereference, a shift by the width of the
type or more and a failed `assert` are faults (`Except Fault _`).
-/

namespace HalucinatorIRQ

/-! ## Constants -/

/-- Default of the `num_irqs` property (`#define DEFAULT_NUM_IRQS 64`). -/
def DEFAULT_NUM_IRQS : Nat := 64

/-- Offset of the first per-line register (`#define OFFSET_IRQ_N_REGS 4`). -/
def OFFSET_IRQ_N_REGS : Nat := 4

/-- Modelled from the spec: the header `hw/avatar/halucinator_irq_memory.h` that
defines the mask is not among the sources; the register layout of the spec puts
the ACTIVE flag of a line at bit 0 of its byte. -/
def IRQ_N_ACTIVE : Nat := 1

/-- Modelled from the spec: the header `hw/avatar/halucinator_irq_memory.h` that
defines the mask is not among the sources; the register layout of the spec puts
the ENABLED flag of a line at bit 1 of its byte. -/
def IRQ_N_ENABLED : Nat := 2

/-- Modelled from the spec: the header `hw/avatar/halucinator_irq_memory.h` that
defines the mask is not among the sources; the spec puts the global enable at
bit 0 of the status word. -/
def GLOBAL_IRQ_ENABLED : Nat := 1

/-- Largest value of a C `int` (32 bits). -/
def INT_MAX : Nat := 2 ^ 31 - 1

/-! ## Machine integers -/

/-- Value of a 32-bit pattern read as a C `int` (two's complement). -/
def int32 (x : Nat) : Int :=
  if x % 2 ^ 32 < 2 ^ 31 then ((x % 2 ^ 32 : Nat) : Int)
  else ((x % 2 ^ 32 : Nat) : Int) - 2 ^ 32

/-- Conversion of a signed value to `unsigned` / `uint32_t`. -/
def uint32 (z : Int) : Nat := (z % 2 ^ 32).toNat

/-- Conversion of a signed value to `uint64_t` (sign extension). -/
def uint64 (z : Int) : Nat := (z % 2 ^ 64).toNat

/-- Bitwise complement of a non-negative `int`, as its 32-bit pattern. -/
def not32 (x : Nat) : Nat := x ^^^ 0xFFFFFFFF

deriving instance DecidableEq for Except

/-- Faults of the C program that end the run of an operation. -/
inductive Fault where
  | nullPointer
  | outOfBounds (index : Int)
  | shiftCount (count : Nat)
  | assertion
  deriving DecidableEq, Repr

/-- Left shift of an `int` operand, `x << count`: the result is the low 32 bits
of the shifted pattern read as an `int`; a count of 32 or more is undefined. -/
def shl_int (x count : Nat) : Except Fault Int :=
  if count < 32 then .ok (int32 (x <<< count)) else .error (.shiftCount count)

/-! ## State -/

/-- The fields of `HalucinatorIRQState` the controller logic uses.
`irq` is the output sink: the levels given to `qemu_set_irq`, latest first.
`irq_regs` is `none` for the null pointer of an object that is not realized,
otherwise the allocated bytes. `num_irqs` and `status_reg` are `uint32_t`. -/
structure HalucinatorIRQState where
  irq : List Bool
  irq_regs : Option (List Nat)
  num_irqs : Nat
  status_reg : Nat
  deriving DecidableEq, Repr

/-- Modelled from the spec: `qemu_set_irq` belongs to the host emulator and is not
among the sources; driving the output sink records the level. -/
def qemu_set_irq (s : HalucinatorIRQState) (level : Bool) : HalucinatorIRQState :=
  { s with irq := level :: s.irq }

/-- Level last driven on the output sink; deasserted when it was never driven. -/
def irq_level (s : HalucinatorIRQState) : Bool := s.irq.headD false

/-- Read of `irq_regs[index]`. -/
def load (regs : Option (List Nat)) (index : Int) : Except Fault Nat :=
  match regs with
  | none => .error .nullPointer
  | some rs =>
    if index < 0 then .error (.outOfBounds index)
    else
      match rs[index.toNat]? with
      | some r => .ok r
      | none => .error (.outOfBounds index)

/-- Write of `irq_regs[index] = v`. -/
def store (regs : Option (List Nat)) (index : Int) (v : Nat) : Except Fault (List Nat) :=
  match regs with
  | none => .error .nullPointer
  | some rs =>
    if index < 0 then .error (.outOfBounds index)
    else if index.toNat < rs.length then .ok (rs.set index.toNat v)
    else .error (.outOfBounds index)

/-- A controller whose fields hold values of their C types, whose line storage is
allocated with `num_irqs` bytes, and whose `num_irqs` fits the `int` that counts
and indexes the lines (`int i` in `update_irq`, `int irq` in `irq_handler`, the
`int` number of input lines `realize` registers). Every state a run reaches from
a realized controller is of this kind (`wellFormed_of_run`). -/
def WellFormed (s : HalucinatorIRQState) : Prop :=
  s.num_irqs ≤ INT_MAX ∧ s.status_reg < 2 ^ 32 ∧
    ∃ rs, s.irq_regs = some rs ∧ rs.length = s.num_irqs ∧ ∀ r ∈ rs, r < 256

/-! ## Update engine -/

/-- Test `(irq_regs[i] & IRQ_N_ACTIVE) && (irq_regs[i] & IRQ_N_ENABLED)`. -/
def line_active (r : Nat) : Bool :=
  (r &&& IRQ_N_ACTIVE != 0) && (r &&& IRQ_N_ENABLED != 0)

/-- The loop of `update_irq`: `n` iterations are left, the counter stands at `i`
(an `int`, compared with `num_irqs` as unsigned), `any` is `any_irq_active`. -/
def update_irq_loop (s : HalucinatorIRQState) : Nat → Nat → Bool → Except Fault Bool
  | 0, _, any => .ok any
  | n + 1, i, any =>
    match load s.irq_regs (int32 i) with
    | .error e => .error e
    | .ok r => update_irq_loop s n (i + 1) (any || line_active r)

/-- Function `update_irq`: scan every line, then drive the output. -/
def update_irq (s : HalucinatorIRQState) : Except Fault HalucinatorIRQState :=
  match update_irq_loop s s.num_irqs 0 false with
  | .error e => .error e
  | .ok any_irq_active =>
    if s.status_reg &&& GLOBAL_IRQ_ENABLED ≠ 0 then .ok (qemu_set_irq s any_irq_active)
    else .ok (qemu_set_irq s false)

/-! ## Register access -/

/-- The loop of the per-line read: `n` iterations are left, the counter stands at
`i`, `ret` is the value packed so far. The byte is an `int` after promotion, the
shift is an `int` shift and the `|=` converts its result to `uint64_t`. -/
def irqc_read_loop (s : HalucinatorIRQState) (offset : Nat) : Nat → Nat → Nat → Except Fault Nat
  | 0, _, ret => .ok ret
  | n + 1, i, ret =>
    match load s.irq_regs (((offset - OFFSET_IRQ_N_REGS + i) % 2 ^ 64 : Nat) : Int) with
    | .error e => .error e
    | .ok r =>
      match shl_int (r &&& 0xFF) (i * 8) with
      | .error e => .error e
      | .ok t => irqc_read_loop s offset n (i + 1) (ret ||| uint64 t)

/-- Function `halucinator_irqc_read`. -/
def halucinator_irqc_read (s : HalucinatorIRQState) (offset size : Nat) : Except Fault Nat :=
  if offset = 0 then .ok (s.status_reg &&& 0xFFFFFFFF)
  else if OFFSET_IRQ_N_REGS ≤ offset ∧ offset < (s.num_irqs + OFFSET_IRQ_N_REGS) % 2 ^ 32 then
    irqc_read_loop s offset size 0 0
  else .ok 0

/-- What a call on the controller gives: the value it returns, or the fault that
ended it, and the controller it leaves. A fault ends the call where it occurs:
the controller is as the statements before the fault made it. -/
abbrev Call (α : Type) := Except Fault α × HalucinatorIRQState

/-- The load `s->irq_regs[index]` as a statement of a call: the byte or the
fault, and the controller, which a load does not write. -/
def load_call (s : HalucinatorIRQState) (index : Int) : Call Nat :=
  (load s.irq_regs index, s)

/-- The loop of the per-line read, statement by statement with the controller
each statement leaves: the load of `irq_regs[offset - OFFSET_IRQ_N_REGS + i]`,
then the shift and the `|=` on the local `ret`. -/
def irqc_read_loop_call (offset : Nat) :
    Nat → Nat → Nat → HalucinatorIRQState → Call Nat
  | 0, _, ret, s => (.ok ret, s)
  | n + 1, i, ret, s =>
    match load_call s (((offset - OFFSET_IRQ_N_REGS + i) % 2 ^ 64 : Nat) : Int) with
    | (.error e, s1) => (.error e, s1)
    | (.ok r, s1) =>
      match shl_int (r &&& 0xFF) (i * 8) with
      | .error e => (.error e, s1)
      | .ok t => irqc_read_loop_call offset n (i + 1) (ret ||| uint64 t) s1

/-- Function `halucinator_irqc_read` as a call on the controller, statement by
statement: what it returns and the controller it leaves. Both branches only read
`status_reg`, `num_irqs` and `irq_regs`; the calls of `update_irq` in them are
commented out in the source, so the output is not driven. The value returned is
the one `halucinator_irqc_read` gives (`read_call_result`). -/
def halucinator_irqc_read_call (s : HalucinatorIRQState) (offset size : Nat) : Call Nat :=
  if offset = 0 then (.ok (s.status_reg &&& 0xFFFFFFFF), s)
  else if OFFSET_IRQ_N_REGS ≤ offset ∧ offset < (s.num_irqs + OFFSET_IRQ_N_REGS) % 2 ^ 32 then
    irqc_read_loop_call offset size 0 0 s
  else (.ok 0, s)

/-- Function `halucinator_irqc_write`. -/
def halucinator_irqc_write (s : HalucinatorIRQState) (offset value _size : Nat) :
    Except Fault HalucinatorIRQState :=
  if offset = 0 then update_irq { s with status_reg := (value &&& 0xFFFFFFFF) % 2 ^ 32 }
  else if OFFSET_IRQ_N_REGS ≤ offset ∧ offset < (s.num_irqs + OFFSET_IRQ_N_REGS) % 2 ^ 32 then
    match store s.irq_regs ((offset - OFFSET_IRQ_N_REGS : Nat) : Int) ((value &&& 0xFF) % 256) with
    | .error e => .error e
    | .ok rs => update_irq { s with irq_regs := some rs }
  else .ok s

/-! ## Line input -/

/-- Function `irq_handler`: the assertion compares `irq` with `num_irqs` as
unsigned; then the ACTIVE flag of the line follows `level`. -/
def irq_handler (s : HalucinatorIRQState) (irq level : Int) : Except Fault HalucinatorIRQState :=
  if uint32 irq < s.num_irqs then
    match load s.irq_regs irq with
    | .error e => .error e
    | .ok r =>
      match store s.irq_regs irq
          (if level ≠ 0 then (r ||| IRQ_N_ACTIVE) % 256 else (r &&& not32 IRQ_N_ACTIVE) % 256) with
      | .error e => .error e
      | .ok rs => update_irq { s with irq_regs := some rs }
  else .error .assertion

/-! ## Debug property setters -/

/-- The body the four setters share after the visitor delivered `irq_num`
(an `int64_t`): nothing when the storage is null or the index is out of range,
otherwise `irq_regs[irq_num] = f irq_regs[irq_num]` and `update_irq`. -/
def irq_setter (f : Nat → Nat) (s : HalucinatorIRQState) (irq_num : Int) :
    Except Fault HalucinatorIRQState :=
  match s.irq_regs with
  | none => .ok s
  | some _ =>
    if irq_num < 0 ∨ (s.num_irqs : Int) ≤ irq_num then .ok s
    else
      match load s.irq_regs irq_num with
      | .error e => .error e
      | .ok r =>
        match store s.irq_regs irq_num (f r) with
        | .error e => .error e
        | .ok rs => update_irq { s with irq_regs := some rs }

/-- Function `halucinator_irq_clear_irq_setter`: `irq_regs[irq_num] &= ~IRQ_N_ACTIVE`. -/
def halucinator_irq_clear_irq_setter (s : HalucinatorIRQState) (irq_num : Int) :
    Except Fault HalucinatorIRQState :=
  irq_setter (fun r => (r &&& not32 IRQ_N_ACTIVE) % 256) s irq_num

/-- Function `halucinator_irq_set_irq_setter`: `irq_regs[irq_num] |= IRQ_N_ACTIVE`. -/
def halucinator_irq_set_irq_setter (s : HalucinatorIRQState) (irq_num : Int) :
    Except Fault HalucinatorIRQState :=
  irq_setter (fun r => (r ||| IRQ_N_ACTIVE) % 256) s irq_num

/-- Function `halucinator_irq_enable_irq_setter`: `irq_regs[irq_num] |= IRQ_N_ENABLED`. -/
def halucinator_irq_enable_irq_setter (s : HalucinatorIRQState) (irq_num : Int) :
    Except Fault HalucinatorIRQState :=
  irq_setter (fun r => (r ||| IRQ_N_ENABLED) % 256) s irq_num

/-- Function `halucinator_irq_disable_irq_setter`: `irq_regs[irq_num] &= ~IRQ_N_ENABLED`. -/
def halucinator_irq_disable_irq_setter (s : HalucinatorIRQState) (irq_num : Int) :
    Except Fault HalucinatorIRQState :=
  irq_setter (fun r => (r &&& not32 IRQ_N_ENABLED) % 256) s irq_num

/-! ## Construction -/

/-- The object before `realize`: zeroed instance memory with the `num_irqs`
property set, no line storage, an output that was never driven. -/
def halucinator_irq_instance (num_irqs : Nat) : HalucinatorIRQState :=
  { irq := [], irq_regs := none, num_irqs := num_irqs, status_reg := 0 }

/-- Function `halucinator_irq_realize`: `status_reg = 0`, then `irq_regs` is
allocated with `num_irqs` bytes and zeroed. The output is not driven. -/
def halucinator_irq_realize (s : HalucinatorIRQState) : HalucinatorIRQState :=
  { s with status_reg := 0, irq_regs := some (List.replicate s.num_irqs 0) }

/-! ## Operation sequences -/

/-- The operations the host can invoke on a controller. -/
inductive Op where
  | read (offset size : Nat)
  | write (offset value size : Nat)
  | set_line (irq level : Int)
  | debug_set (irq_num : Int)
  | debug_clear (irq_num : Int)
  | debug_enable (irq_num : Int)
  | debug_disable (irq_num : Int)
  deriving DecidableEq, Repr

/-- One operation. A read returns its value to the host and leaves the state. -/
def step (s : HalucinatorIRQState) : Op → Except Fault HalucinatorIRQState
  | .read offset size =>
    match halucinator_irqc_read s offset size with
    | .error e => .error e
    | .ok _ => .ok s
  | .write offset value size => halucinator_irqc_write s offset value size
  | .set_line irq level => irq_handler s irq level
  | .debug_set irq_num => halucinator_irq_set_irq_setter s irq_num
  | .debug_clear irq_num => halucinator_irq_clear_irq_setter s irq_num
  | .debug_enable irq_num => halucinator_irq_enable_irq_setter s irq_num
  | .debug_disable irq_num => halucinator_irq_disable_irq_setter s irq_num

/-- A finite sequence of operations, run in order; a fault ends the run. -/
def run (s : HalucinatorIRQState) : List Op → Except Fault HalucinatorIRQState
  | [] => .ok s
  | op :: ops =>
    match step s op with
    | .error e => .error e
    | .ok t => run t ops

/-- The aggregate of the spec: global enable set and some line below `num_irqs`
both active and enabled. -/
def aggregate (s : HalucinatorIRQState) : Prop :=
  s.status_reg &&& GLOBAL_IRQ_ENABLED ≠ 0 ∧
    ∃ i rs r, i < s.num_irqs ∧ s.irq_regs = some rs ∧ rs[i]? = some r ∧
      r &&& IRQ_N_ACTIVE ≠ 0 ∧ r &&& IRQ_N_ENABLED ≠ 0

/-- The level `update_irq` drives for line bytes `rs`: the disjunction over the
lines when the global enable is set, otherwise deasserted. -/
def driven_level (status_reg : Nat) (rs : List Nat) : Bool :=
  decide (status_reg &&& GLOBAL_IRQ_ENABLED ≠ 0) && rs.any line_active

/-- The output follows the aggregate, on a controller whose line storage is
allocated with `num_irqs` bytes. -/
def OutputInvariant (s : HalucinatorIRQState) : Prop :=
  (∃ rs, s.irq_regs = some rs ∧ rs.length = s.num_irqs) ∧ (irq_level s = true ↔ aggregate s)

/-- Operations that run on a well-formed controller: a read at offset 0, at an
offset outside the line registers, or of 1, 2 or 4 bytes inside them; a line
input with a valid index; every write and every debug setter. -/
def valid_op (s : HalucinatorIRQState) : Op → Prop
  | .read offset size =>
    offset = 0 ∨ ¬ (OFFSET_IRQ_N_REGS ≤ offset ∧ offset < OFFSET_IRQ_N_REGS + s.num_irqs) ∨
      ((size = 1 ∨ size = 2 ∨ size = 4) ∧ OFFSET_IRQ_N_REGS ≤ offset ∧
        offset - OFFSET_IRQ_N_REGS + size ≤ s.num_irqs)
  | .set_line irq _ => 0 ≤ irq ∧ irq < s.num_irqs
  | _ => True

/-- Between `s` and `t` only the bits of mask `m` in line register `i` may differ,
and in `t` they are all set (`raised`) or all clear: every bit outside the mask,
the flags of every mask disjoint from `m`, every other line register, the status
word and `num_irqs` are the same. -/
def changes_only_mask (m : Nat) (raised : Bool) (i : Nat) (s t : HalucinatorIRQState) : Prop :=
  ∃ rs rs1 r r1, s.irq_regs = some rs ∧ t.irq_regs = some rs1 ∧ rs1.length = rs.length ∧
    rs[i]? = some r ∧ rs1[i]? = some r1 ∧
    r1 &&& m = (if raised then m else 0) ∧
    (∀ k, m.testBit k = false → r1.testBit k = r.testBit k) ∧
    (∀ e, m &&& e = 0 → r1 &&& e = r &&& e) ∧
    (∀ j, j ≠ i → rs1[j]? = rs[j]?) ∧
    t.status_reg = s.status_reg ∧ t.num_irqs = s.num_irqs

/-- Little-endian packing of `size` consecutive line bytes from `index` on, as the
spec words the per-line read: the sum of `line_regs[index + i] * 2^(8*i)`. -/
def little_endian (rs : List Nat) (index size : Nat) : Nat :=
  ((List.range size).map (fun i => rs.getD (index + i) 0 * 2 ^ (8 * i))).sum

/-- A controller with four lines: line 0 active and enabled, line 3 holding
`0x80`, global enable set, output asserted. It is reached from the realized
controller by three register writes (`four_lines_reachable`). -/
def four_lines : HalucinatorIRQState :=
  { irq := [true, false, false], irq_regs := some [3, 0, 0, 0x80], num_irqs := 4,
    status_reg := 1 }

/-- The four-line controller with other reserved bits: the status word and the
line registers agree with `four_lines` on the global-enable bit and on the
ACTIVE and ENABLED bits, and differ elsewhere. -/
def four_lines_reserved : HalucinatorIRQState :=
  { irq := [true, false, false], irq_regs := some [0xFF, 0xFC, 0x04, 0], num_irqs := 4,
    status_reg := 0xFFFFFFF1 }

/-- A controller with six lines as `realize` leaves it. -/
def six_lines : HalucinatorIRQState :=
  { irq := [], irq_regs := some [0, 0, 0, 0, 0, 0], num_irqs := 6, status_reg := 0 }

/-! ## Machine integers and memory: basic facts -/

theorem int32_of_le (i : Nat) (h : i ≤ INT_MAX) : int32 i = (i : Int) := by
  unfold INT_MAX at h
  unfold int32
  have h1 : i % 2 ^ 32 = i := Nat.mod_eq_of_lt (by omega)
  rw [h1, if_pos (by omega)]

theorem int32_neg (i : Nat) (h : i = 2 ^ 31) : int32 i < 0 := by
  subst h
  decide

theorem load_natCast (rs : List Nat) (i : Nat) :
    load (some rs) (i : Int) = match rs[i]? with
      | some r => .ok r
      | none => .error (.outOfBounds (i : Int)) := by
  simp [load]

theorem load_ok_iff (rs : List Nat) (i r : Nat) :
    load (some rs) (i : Int) = .ok r ↔ rs[i]? = some r := by
  rw [load_natCast]
  cases h : rs[i]? <;> simp

theorem store_natCast (rs : List Nat) (i v : Nat) (h : i < rs.length) :
    store (some rs) (i : Int) v = .ok (rs.set i v) := by
  simp [store, h]

/-! ## The update engine computes the disjunction over the lines -/

theorem update_irq_loop_inv (s : HalucinatorIRQState) (rs : List Nat)
    (hrs : s.irq_regs = some rs) :
    ∀ (n i : Nat) (any b : Bool), i ≤ 2 ^ 31 → update_irq_loop s n i any = .ok b →
      b = (any || ((rs.drop i).take n).any line_active) := by
  intro n
  induction n with
  | zero =>
    intro i any b _ h
    simp [update_irq_loop] at h
    simp [h]
  | succ n ih =>
    intro i any b hi h
    rw [update_irq_loop, hrs] at h
    by_cases h31 : i = 2 ^ 31
    · have hneg := int32_neg i h31
      simp [load, hneg] at h
    · have hle : i ≤ INT_MAX := by unfold INT_MAX; omega
      rw [int32_of_le i hle, load_natCast] at h
      cases hget : rs[i]? with
      | none => simp [hget] at h
      | some r =>
        simp only [hget] at h
        obtain ⟨hlt, hr⟩ := List.getElem?_eq_some_iff.mp hget
        have := ih (i + 1) (any || line_active r) b (by omega) h
        rw [this, List.drop_eq_getElem_cons hlt, hr, List.take_succ_cons,
          List.any_cons, Bool.or_assoc]

theorem update_irq_loop_ok (s : HalucinatorIRQState) (rs : List Nat)
    (hrs : s.irq_regs = some rs) (hlen : rs.length ≤ INT_MAX) :
    ∀ (n i : Nat) (any : Bool), i + n ≤ rs.length →
      update_irq_loop s n i any = .ok (any || ((rs.drop i).take n).any line_active) := by
  intro n
  induction n with
  | zero =>
    intro i any _
    simp [update_irq_loop]
  | succ n ih =>
    intro i any hin
    have hlt : i < rs.length := by omega
    rw [update_irq_loop, hrs, int32_of_le i (by omega), load_natCast,
      List.getElem?_eq_getElem hlt]
    simp only
    rw [ih (i + 1) _ (by omega), List.drop_eq_getElem_cons hlt, List.take_succ_cons,
      List.any_cons, Bool.or_assoc]

theorem update_irq_inv (s t : HalucinatorIRQState) (rs : List Nat)
    (hrs : s.irq_regs = some rs) (hlen : rs.length = s.num_irqs)
    (h : update_irq s = .ok t) : t = qemu_set_irq s (driven_level s.status_reg rs) := by
  unfold update_irq at h
  cases hl : update_irq_loop s s.num_irqs 0 false with
  | error e => simp [hl] at h
  | ok b =>
    have hb := update_irq_loop_inv s rs hrs s.num_irqs 0 false b (by omega) hl
    rw [← hlen] at hb
    simp only [List.drop_zero, List.take_length, Bool.false_or] at hb
    simp only [hl] at h
    unfold driven_level
    by_cases hg : s.status_reg &&& GLOBAL_IRQ_ENABLED ≠ 0
    · rw [if_pos hg] at h
      simp only [Except.ok.injEq] at h
      simp [← h, hg, hb]
    · rw [if_neg hg] at h
      simp only [Except.ok.injEq] at h
      simp [← h, hg]

theorem update_irq_ok (s : HalucinatorIRQState) (rs : List Nat)
    (hrs : s.irq_regs = some rs) (hlen : rs.length = s.num_irqs) (hmax : s.num_irqs ≤ INT_MAX) :
    update_irq s = .ok (qemu_set_irq s (driven_level s.status_reg rs)) := by
  have hl := update_irq_loop_ok s rs hrs (by omega) s.num_irqs 0 false (by omega)
  rw [← hlen] at hl
  simp only [List.drop_zero, List.take_length, Bool.false_or] at hl
  rw [hlen] at hl
  unfold update_irq driven_level
  rw [hl]
  by_cases hg : s.status_reg &&& GLOBAL_IRQ_ENABLED ≠ 0
  · simp [hg]
  · simp [hg]

theorem line_active_iff (r : Nat) :
    line_active r = true ↔ r &&& IRQ_N_ACTIVE ≠ 0 ∧ r &&& IRQ_N_ENABLED ≠ 0 := by
  simp [line_active]

theorem aggregate_iff (s : HalucinatorIRQState) (rs : List Nat)
    (hrs : s.irq_regs = some rs) (hlen : rs.length = s.num_irqs) :
    aggregate s ↔ driven_level s.status_reg rs = true := by
  unfold aggregate driven_level
  simp only [Bool.and_eq_true, decide_eq_true_eq, List.any_eq_true, line_active_iff]
  constructor
  · rintro ⟨hg, i, rs1, r, _, h1, hget, ha, he⟩
    rw [hrs] at h1
    cases h1
    exact ⟨hg, r, List.mem_iff_getElem?.mpr ⟨i, hget⟩, ha, he⟩
  · rintro ⟨hg, r, hmem, ha, he⟩
    obtain ⟨i, hget⟩ := List.mem_iff_getElem?.mp hmem
    obtain ⟨hlt, _⟩ := List.getElem?_eq_some_iff.mp hget
    exact ⟨hg, i, rs, r, by omega, hrs, hget, ha, he⟩

/-! ## The output invariant along runs -/

theorem store_inv (rs rs1 : List Nat) (z : Int) (v : Nat)
    (h : store (some rs) z v = .ok rs1) :
    rs1 = rs.set z.toNat v ∧ z.toNat < rs.length ∧ 0 ≤ z := by
  unfold store at h
  simp only at h
  split at h
  · simp at h
  · split at h
    · simp only [Except.ok.injEq] at h
      exact ⟨h.symm, by assumption, by omega⟩
    · simp at h

theorem invariant_of_update_irq (s t : HalucinatorIRQState) (rs : List Nat)
    (hrs : s.irq_regs = some rs) (hlen : rs.length = s.num_irqs)
    (h : update_irq s = .ok t) : OutputInvariant t := by
  have ht := update_irq_inv s t rs hrs hlen h
  subst ht
  refine ⟨⟨rs, hrs, hlen⟩, ?_⟩
  rw [aggregate_iff (qemu_set_irq s (driven_level s.status_reg rs)) rs hrs hlen]
  simp [irq_level, qemu_set_irq, driven_level]

theorem invariant_of_store_update (s t : HalucinatorIRQState) (rs rs1 : List Nat)
    (z : Int) (v : Nat) (hlen : rs.length = s.num_irqs)
    (hst : store (some rs) z v = .ok rs1)
    (h : update_irq { s with irq_regs := some rs1 } = .ok t) : OutputInvariant t := by
  obtain ⟨h1, _, _⟩ := store_inv rs rs1 z v hst
  refine invariant_of_update_irq _ t rs1 rfl ?_ h
  simp [h1, hlen]

theorem invariant_of_write (s t : HalucinatorIRQState) (offset value size : Nat)
    (hs : OutputInvariant s) (h : halucinator_irqc_write s offset value size = .ok t) :
    OutputInvariant t := by
  obtain ⟨⟨rs, hrs, hlen⟩, hout⟩ := hs
  unfold halucinator_irqc_write at h
  split at h
  · exact invariant_of_update_irq _ t rs (by exact hrs) (by exact hlen) h
  · split at h
    · rw [hrs] at h
      split at h
      · simp at h
      · next rs1 hst => exact invariant_of_store_update s t rs rs1 _ _ hlen hst h
    · simp only [Except.ok.injEq] at h
      subst h
      exact ⟨⟨rs, hrs, hlen⟩, hout⟩

theorem invariant_of_irq_handler (s t : HalucinatorIRQState) (irq level : Int)
    (hs : OutputInvariant s) (h : irq_handler s irq level = .ok t) : OutputInvariant t := by
  obtain ⟨⟨rs, hrs, hlen⟩, _⟩ := hs
  unfold irq_handler at h
  split at h
  · rw [hrs] at h
    split at h
    · simp at h
    · split at h
      · simp at h
      · next rs1 hst => exact invariant_of_store_update s t rs rs1 _ _ hlen hst h
  · simp at h

theorem invariant_of_irq_setter (f : Nat → Nat) (s t : HalucinatorIRQState) (irq_num : Int)
    (hs : OutputInvariant s) (h : irq_setter f s irq_num = .ok t) : OutputInvariant t := by
  obtain ⟨⟨rs, hrs, hlen⟩, hout⟩ := hs
  unfold irq_setter at h
  rw [hrs] at h
  simp only at h
  split at h
  · simp only [Except.ok.injEq] at h
    subst h
    exact ⟨⟨rs, hrs, hlen⟩, hout⟩
  · split at h
    · simp at h
    · split at h
      · simp at h
      · next rs1 hst => exact invariant_of_store_update s t rs rs1 _ _ hlen hst h

theorem invariant_of_step (s t : HalucinatorIRQState) (op : Op)
    (hs : OutputInvariant s) (h : step s op = .ok t) : OutputInvariant t := by
  cases op with
  | read offset size =>
    simp only [step] at h
    split at h
    · simp at h
    · simp only [Except.ok.injEq] at h
      subst h
      exact hs
  | write offset value size => exact invariant_of_write s t offset value size hs h
  | set_line irq level => exact invariant_of_irq_handler s t irq level hs h
  | debug_set irq_num => exact invariant_of_irq_setter _ s t irq_num hs h
  | debug_clear irq_num => exact invariant_of_irq_setter _ s t irq_num hs h
  | debug_enable irq_num => exact invariant_of_irq_setter _ s t irq_num hs h
  | debug_disable irq_num => exact invariant_of_irq_setter _ s t irq_num hs h

theorem invariant_of_run (ops : List Op) :
    ∀ (s t : HalucinatorIRQState), OutputInvariant s → run s ops = .ok t → OutputInvariant t := by
  induction ops with
  | nil =>
    intro s t hs h
    simp only [run, Except.ok.injEq] at h
    subst h
    exact hs
  | cons op ops ih =>
    intro s t hs h
    simp only [run] at h
    split at h
    · simp at h
    · next u hstep => exact ih u t (invariant_of_step s u op hs hstep) h

theorem invariant_of_realize (N : Nat) :
    OutputInvariant (halucinator_irq_realize (halucinator_irq_instance N)) := by
  refine ⟨⟨List.replicate N 0, rfl, by simp [halucinator_irq_instance, halucinator_irq_realize]⟩, ?_⟩
  simp [irq_level, halucinator_irq_realize, halucinator_irq_instance, aggregate,
    GLOBAL_IRQ_ENABLED]

theorem wellFormed_four_lines : WellFormed four_lines :=
  ⟨by decide, by decide, [3, 0, 0, 0x80], rfl, rfl, by decide⟩

theorem wellFormed_six_lines : WellFormed six_lines :=
  ⟨by decide, by decide, [0, 0, 0, 0, 0, 0], rfl, rfl, by decide⟩

/-! ## The operations on a well-formed controller -/

theorem and_mask32 (v : Nat) : (v &&& 0xFFFFFFFF) % 2 ^ 32 = v % 2 ^ 32 := by
  have h := Nat.and_pow_two_sub_one_eq_mod v 32
  norm_num at h
  rw [h]
  omega

theorem and_mask8 (v : Nat) : v &&& 0xFF = v % 256 := by
  have h := Nat.and_pow_two_sub_one_eq_mod v 8
  norm_num at h
  exact h

theorem window_no_wrap (n : Nat) (h : n ≤ INT_MAX) :
    (n + OFFSET_IRQ_N_REGS) % 2 ^ 32 = OFFSET_IRQ_N_REGS + n := by
  unfold INT_MAX at h
  unfold OFFSET_IRQ_N_REGS
  omega

theorem write_status_ok (s : HalucinatorIRQState) (rs : List Nat) (v size : Nat)
    (hmax : s.num_irqs ≤ INT_MAX) (hrs : s.irq_regs = some rs) (hlen : rs.length = s.num_irqs) :
    halucinator_irqc_write s 0 v size =
      .ok (qemu_set_irq { s with status_reg := v % 2 ^ 32 } (driven_level (v % 2 ^ 32) rs)) := by
  unfold halucinator_irqc_write
  rw [if_pos rfl, and_mask32]
  exact update_irq_ok _ rs hrs hlen hmax

theorem write_line_ok (s : HalucinatorIRQState) (rs : List Nat) (offset v size : Nat)
    (hmax : s.num_irqs ≤ INT_MAX) (hrs : s.irq_regs = some rs) (hlen : rs.length = s.num_irqs)
    (h1 : OFFSET_IRQ_N_REGS ≤ offset) (h2 : offset < OFFSET_IRQ_N_REGS + s.num_irqs) :
    halucinator_irqc_write s offset v size =
      .ok (qemu_set_irq { s with irq_regs := some (rs.set (offset - OFFSET_IRQ_N_REGS) (v &&& 0xFF)) }
        (driven_level s.status_reg (rs.set (offset - OFFSET_IRQ_N_REGS) (v &&& 0xFF)))) := by
  have h0 : offset ≠ 0 := by unfold OFFSET_IRQ_N_REGS at h1; omega
  have hv : (v &&& 0xFF) % 256 = v &&& 0xFF := by rw [and_mask8]; omega
  unfold halucinator_irqc_write
  rw [if_neg h0, window_no_wrap _ hmax, if_pos ⟨h1, h2⟩, hrs, hv,
    store_natCast rs _ _ (by omega)]
  exact update_irq_ok _ _ rfl (by simp [hlen]) hmax

theorem write_invalid_ok (s : HalucinatorIRQState) (offset v size : Nat)
    (hmax : s.num_irqs ≤ INT_MAX) (h0 : offset ≠ 0)
    (hout : ¬ (OFFSET_IRQ_N_REGS ≤ offset ∧ offset < OFFSET_IRQ_N_REGS + s.num_irqs)) :
    halucinator_irqc_write s offset v size = .ok s := by
  unfold halucinator_irqc_write
  rw [if_neg h0, window_no_wrap _ hmax, if_neg hout]

theorem read_invalid_ok (s : HalucinatorIRQState) (offset size : Nat)
    (hmax : s.num_irqs ≤ INT_MAX) (h0 : offset ≠ 0)
    (hout : ¬ (OFFSET_IRQ_N_REGS ≤ offset ∧ offset < OFFSET_IRQ_N_REGS + s.num_irqs)) :
    halucinator_irqc_read s offset size = .ok 0 := by
  unfold halucinator_irqc_read
  rw [if_neg h0, window_no_wrap _ hmax, if_neg hout]

/-! ## The per-line read packs the bytes and sign-extends bit 31 -/

theorem read_term (r i : Nat) (hr : r < 256) (hi : i < 4) :
    uint64 (int32 ((r &&& 0xFF) <<< (i * 8))) =
      2 ^ (8 * i) * (r + if i = 3 ∧ 128 ≤ r then 2 ^ 40 - 2 ^ 8 else 0) := by
  rw [and_mask8, Nat.mod_eq_of_lt hr, Nat.shiftLeft_eq]
  unfold uint64 int32
  interval_cases i
  · norm_num
    split <;> omega
  · norm_num
    split <;> omega
  · norm_num
    split <;> omega
  · norm_num
    split <;> split <;> omega

theorem irqc_read_loop_succ (s : HalucinatorIRQState) (rs : List Nat) (offset n i ret r : Nat)
    (hrs : s.irq_regs = some rs) (hlen : rs.length ≤ INT_MAX)
    (hget : rs[offset - OFFSET_IRQ_N_REGS + i]? = some r) (hr : r < 256) (hi : i < 4) :
    irqc_read_loop s offset (n + 1) i ret =
      irqc_read_loop s offset n (i + 1)
        (ret ||| 2 ^ (8 * i) * (r + if i = 3 ∧ 128 ≤ r then 2 ^ 40 - 2 ^ 8 else 0)) := by
  have hlt := (List.getElem?_eq_some_iff.mp hget).1
  have hsmall : (offset - OFFSET_IRQ_N_REGS + i) % 2 ^ 64 = offset - OFFSET_IRQ_N_REGS + i := by
    unfold INT_MAX at hlen
    exact Nat.mod_eq_of_lt (by omega)
  rw [irqc_read_loop, hrs, hsmall, load_natCast, hget]
  simp only [shl_int, if_pos (by omega : i * 8 < 32)]
  rw [read_term r i hr hi]

theorem or_pack (b a i : Nat) (hb : b < 2 ^ i) : b ||| 2 ^ i * a = b + 2 ^ i * a := by
  rw [Nat.or_comm, ← Nat.mul_add_lt_is_or hb, Nat.add_comm]

theorem getD_of_getElem? (rs : List Nat) (i r : Nat) (h : rs[i]? = some r) :
    rs.getD i 0 = r := by
  simp [List.getD_eq_getElem?_getD, h]

theorem little_endian_one (rs : List Nat) (k : Nat) :
    little_endian rs k 1 = rs.getD (k + 0) 0 := by
  simp [little_endian, List.range_succ]

theorem little_endian_two (rs : List Nat) (k : Nat) :
    little_endian rs k 2 = rs.getD (k + 0) 0 + 256 * rs.getD (k + 1) 0 := by
  simp [little_endian, List.range_succ]
  omega

theorem little_endian_four (rs : List Nat) (k : Nat) :
    little_endian rs k 4 = rs.getD (k + 0) 0 + 256 * rs.getD (k + 1) 0 +
      65536 * rs.getD (k + 2) 0 + 16777216 * rs.getD (k + 3) 0 := by
  simp [little_endian, List.range_succ]
  omega

theorem read_line_ok (s : HalucinatorIRQState) (offset size : Nat) (rs : List Nat)
    (hmax : s.num_irqs ≤ INT_MAX) (hrs : s.irq_regs = some rs) (hlen : rs.length = s.num_irqs)
    (hbytes : ∀ r ∈ rs, r < 256)
    (h1 : OFFSET_IRQ_N_REGS ≤ offset) (h2 : offset < OFFSET_IRQ_N_REGS + s.num_irqs)
    (hsize : size = 1 ∨ size = 2 ∨ size = 4)
    (hin : offset - OFFSET_IRQ_N_REGS + size ≤ s.num_irqs) :
    halucinator_irqc_read s offset size =
      .ok (little_endian rs (offset - OFFSET_IRQ_N_REGS) size +
        if size = 4 ∧ 128 ≤ rs.getD (offset - OFFSET_IRQ_N_REGS + 3) 0
        then 0xFFFFFFFF00000000 else 0) := by
  have h0 : offset ≠ 0 := by unfold OFFSET_IRQ_N_REGS at h1; omega
  have hl : rs.length ≤ INT_MAX := by omega
  have hbyte : ∀ i, i < size → ∃ r, rs[offset - OFFSET_IRQ_N_REGS + i]? = some r ∧ r < 256 ∧
      rs.getD (offset - OFFSET_IRQ_N_REGS + i) 0 = r := by
    intro i hi
    have hlt : offset - OFFSET_IRQ_N_REGS + i < rs.length := by omega
    exact ⟨_, List.getElem?_eq_getElem hlt, hbytes _ (List.getElem_mem hlt),
      getD_of_getElem? _ _ _ (List.getElem?_eq_getElem hlt)⟩
  unfold halucinator_irqc_read
  rw [if_neg h0, window_no_wrap _ hmax, if_pos ⟨h1, h2⟩]
  rcases hsize with rfl | rfl | rfl
  · obtain ⟨r0, g0, b0, d0⟩ := hbyte 0 (by omega)
    rw [irqc_read_loop_succ s rs offset 0 0 0 r0 hrs hl g0 b0 (by omega), little_endian_one, d0]
    simp only [irqc_read_loop]
    congr 1
    rw [or_pack _ _ (8 * 0) (by norm_num)]
    norm_num
  · obtain ⟨r0, g0, b0, d0⟩ := hbyte 0 (by omega)
    obtain ⟨r1, g1, b1, d1⟩ := hbyte 1 (by omega)
    rw [irqc_read_loop_succ s rs offset 1 0 0 r0 hrs hl g0 b0 (by omega),
      irqc_read_loop_succ s rs offset 0 1 _ r1 hrs hl g1 b1 (by omega),
      little_endian_two, d0, d1]
    simp only [irqc_read_loop]
    congr 1
    rw [or_pack _ _ (8 * 0) (by norm_num), or_pack _ _ (8 * 1) (by norm_num; omega)]
    norm_num
  · obtain ⟨r0, g0, b0, d0⟩ := hbyte 0 (by omega)
    obtain ⟨r1, g1, b1, d1⟩ := hbyte 1 (by omega)
    obtain ⟨r2, g2, b2, d2⟩ := hbyte 2 (by omega)
    obtain ⟨r3, g3, b3, d3⟩ := hbyte 3 (by omega)
    rw [irqc_read_loop_succ s rs offset 3 0 0 r0 hrs hl g0 b0 (by omega),
      irqc_read_loop_succ s rs offset 2 1 _ r1 hrs hl g1 b1 (by omega),
      irqc_read_loop_succ s rs offset 1 2 _ r2 hrs hl g2 b2 (by omega),
      irqc_read_loop_succ s rs offset 0 3 _ r3 hrs hl g3 b3 (by omega),
      little_endian_four, d0, d1, d2, d3]
    simp only [irqc_read_loop]
    congr 1
    rw [or_pack _ _ (8 * 0) (by norm_num), or_pack _ _ (8 * 1) (by norm_num; omega),
      or_pack _ _ (8 * 2) (by norm_num; omega), or_pack _ _ (8 * 3) (by norm_num; omega)]
    norm_num
    split <;> omega

theorem bytes_set (rs : List Nat) (i v : Nat) (hbytes : ∀ r ∈ rs, r < 256) (hv : v < 256) :
    ∀ r ∈ rs.set i v, r < 256 := by
  intro r hr
  rcases List.mem_or_eq_of_mem_set hr with h | h
  · exact hbytes r h
  · omega

theorem getD_set_self (rs : List Nat) (i v : Nat) (h : i < rs.length) :
    (rs.set i v).getD i 0 = v := by
  simp [List.getD_eq_getElem?_getD, List.getElem?_set_self h]

theorem getD_set_ne (rs : List Nat) (i j v : Nat) (h : i ≠ j) :
    (rs.set i v).getD j 0 = rs.getD j 0 := by
  simp [List.getD_eq_getElem?_getD, List.getElem?_set_ne h]

theorem byte_at (rs : List Nat) (i : Nat) (hbytes : ∀ r ∈ rs, r < 256) (h : i < rs.length) :
    rs[i]? = some (rs.getD i 0) ∧ rs.getD i 0 < 256 := by
  have hg := List.getElem?_eq_getElem h
  rw [getD_of_getElem? rs i _ hg]
  exact ⟨hg, hbytes _ (List.getElem_mem h)⟩

theorem packed_bytes (b0 b1 b2 b3 e : Nat) (h0 : b0 < 256) (h1 : b1 < 256) (h2 : b2 < 256)
    (h3 : b3 < 256) (he : e = 0 ∨ e = 0xFFFFFFFF00000000) :
    (b0 + 256 * b1 + 65536 * b2 + 16777216 * b3 + e) % 256 = b0 ∧
    (b0 + 256 * b1 + 65536 * b2 + 16777216 * b3 + e) / 2 ^ (8 * 1) % 256 = b1 ∧
    (b0 + 256 * b1 + 65536 * b2 + 16777216 * b3 + e) / 2 ^ (8 * 2) % 256 = b2 ∧
    (b0 + 256 * b1 + 65536 * b2 + 16777216 * b3 + e) / 2 ^ (8 * 3) % 256 = b3 := by
  simp only [show (2 : Nat) ^ (8 * 1) = 256 by norm_num,
    show (2 : Nat) ^ (8 * 2) = 65536 by norm_num,
    show (2 : Nat) ^ (8 * 3) = 16777216 by norm_num]
  rcases he with rfl | rfl <;> omega

/-! ## Setting and clearing the bits of a mask in a line byte -/

theorem testBit_not32 (m k : Nat) : (not32 m).testBit k = (m.testBit k ^^ decide (k < 32)) := by
  unfold not32
  rw [show (0xFFFFFFFF : Nat) = 2 ^ 32 - 1 by norm_num, Nat.testBit_xor,
    Nat.testBit_two_pow_sub_one]

theorem testBit_byte_high (r k : Nat) (hr : r < 256) (hk : 32 ≤ k) : r.testBit k = false := by
  apply Nat.testBit_lt_two_pow
  calc r < 2 ^ 8 := by omega
    _ ≤ 2 ^ k := Nat.pow_le_pow_right (by omega) (by omega)

theorem testBit_and_not32 (r m k : Nat) (hr : r < 256) :
    (r &&& not32 m).testBit k = (r.testBit k && !m.testBit k) := by
  rw [Nat.testBit_and, testBit_not32]
  by_cases hk : k < 32
  · simp [hk]
  · rw [testBit_byte_high r k hr (by omega)]
    simp

theorem or_mask_byte (r m : Nat) (hr : r < 256) (hm : m < 256) : (r ||| m) % 256 = r ||| m :=
  Nat.mod_eq_of_lt (Nat.or_lt_two_pow (n := 8) hr hm)

theorem and_not_mask_byte (r m : Nat) (hr : r < 256) : (r &&& not32 m) % 256 = r &&& not32 m :=
  Nat.mod_eq_of_lt (Nat.lt_of_le_of_lt Nat.and_le_left hr)

theorem or_mask_and_self (r m : Nat) : (r ||| m) &&& m = m := by
  apply Nat.eq_of_testBit_eq
  intro k
  rw [Nat.testBit_and, Nat.testBit_or]
  cases r.testBit k <;> cases m.testBit k <;> rfl

theorem or_mask_and_disjoint (r m e : Nat) (h : m &&& e = 0) : (r ||| m) &&& e = r &&& e := by
  apply Nat.eq_of_testBit_eq
  intro k
  have hk : (m &&& e).testBit k = false := by rw [h]; simp
  rw [Nat.testBit_and] at hk
  rw [Nat.testBit_and, Nat.testBit_or, Nat.testBit_and]
  revert hk
  cases r.testBit k <;> cases m.testBit k <;> cases e.testBit k <;> simp

theorem and_not_mask_and_self (r m : Nat) (hr : r < 256) : (r &&& not32 m) &&& m = 0 := by
  apply Nat.eq_of_testBit_eq
  intro k
  rw [Nat.testBit_and, testBit_and_not32 r m k hr]
  cases r.testBit k <;> cases m.testBit k <;> simp

theorem and_not_mask_and_disjoint (r m e : Nat) (hr : r < 256) (h : m &&& e = 0) :
    (r &&& not32 m) &&& e = r &&& e := by
  apply Nat.eq_of_testBit_eq
  intro k
  have hk : (m &&& e).testBit k = false := by rw [h]; simp
  rw [Nat.testBit_and] at hk
  rw [Nat.testBit_and, testBit_and_not32 r m k hr, Nat.testBit_and]
  revert hk
  cases r.testBit k <;> cases m.testBit k <;> cases e.testBit k <;> simp

theorem testBit_or_mask (r m k : Nat) (hm : m.testBit k = false) :
    (r ||| m).testBit k = r.testBit k := by
  rw [Nat.testBit_or, hm, Bool.or_false]

theorem testBit_and_not_mask (r m k : Nat) (hr : r < 256) (hm : m.testBit k = false) :
    (r &&& not32 m).testBit k = r.testBit k := by
  rw [testBit_and_not32 r m k hr, hm]
  simp

/-! ## The line input and the debug setters on a well-formed controller -/

theorem uint32_natCast (n : Nat) (h : n ≤ INT_MAX) : uint32 (n : Int) = n := by
  unfold INT_MAX at h
  unfold uint32
  omega

theorem irq_handler_ok (s : HalucinatorIRQState) (rs : List Nat) (n : Nat) (level : Int)
    (hmax : s.num_irqs ≤ INT_MAX) (hrs : s.irq_regs = some rs) (hlen : rs.length = s.num_irqs)
    (hn : n < s.num_irqs) :
    irq_handler s (n : Int) level =
      .ok (qemu_set_irq
        { s with irq_regs := some (rs.set n
            (if level ≠ 0 then (rs.getD n 0 ||| IRQ_N_ACTIVE) % 256
             else (rs.getD n 0 &&& not32 IRQ_N_ACTIVE) % 256)) }
        (driven_level s.status_reg (rs.set n
            (if level ≠ 0 then (rs.getD n 0 ||| IRQ_N_ACTIVE) % 256
             else (rs.getD n 0 &&& not32 IRQ_N_ACTIVE) % 256)))) := by
  have hget : rs[n]? = some (rs.getD n 0) := by
    have hg := List.getElem?_eq_getElem (l := rs) (n := n) (by omega)
    rw [getD_of_getElem? rs n _ hg]
    exact hg
  unfold irq_handler
  rw [uint32_natCast n (by omega), if_pos hn, hrs, load_natCast, hget]
  simp only
  rw [store_natCast rs n _ (by omega)]
  exact update_irq_ok _ _ rfl (by simp [hlen]) hmax

theorem irq_setter_ok (f : Nat → Nat) (s : HalucinatorIRQState) (rs : List Nat) (n : Nat)
    (hmax : s.num_irqs ≤ INT_MAX) (hrs : s.irq_regs = some rs) (hlen : rs.length = s.num_irqs)
    (hn : n < s.num_irqs) :
    irq_setter f s (n : Int) =
      .ok (qemu_set_irq { s with irq_regs := some (rs.set n (f (rs.getD n 0))) }
        (driven_level s.status_reg (rs.set n (f (rs.getD n 0))))) := by
  have hget : rs[n]? = some (rs.getD n 0) := by
    have hg := List.getElem?_eq_getElem (l := rs) (n := n) (by omega)
    rw [getD_of_getElem? rs n _ hg]
    exact hg
  unfold irq_setter
  rw [hrs]
  simp only
  rw [if_neg (by omega), load_natCast, hget]
  simp only
  rw [store_natCast rs n _ (by omega)]
  exact update_irq_ok _ _ rfl (by simp [hlen]) hmax

theorem irq_setter_out_of_range (f : Nat → Nat) (s : HalucinatorIRQState) (irq_num : Int)
    (h : s.irq_regs = none ∨ irq_num < 0 ∨ (s.num_irqs : Int) ≤ irq_num) :
    irq_setter f s irq_num = .ok s := by
  unfold irq_setter
  cases hrs : s.irq_regs with
  | none => rfl
  | some rs =>
    simp only
    rw [if_pos]
    rcases h with h | h | h
    · rw [hrs] at h
      cases h
    · exact Or.inl h
    · exact Or.inr h

/-! ## Well-formedness along runs -/

theorem wellFormed_of_update_irq (s t : HalucinatorIRQState) (hs : WellFormed s)
    (h : update_irq s = .ok t) : WellFormed t := by
  obtain ⟨hmax, hst, rs, hrs, hlen, hb⟩ := hs
  have ht := update_irq_inv s t rs hrs hlen h
  subst ht
  exact ⟨hmax, hst, rs, hrs, hlen, hb⟩

theorem wellFormed_of_store_update (s t : HalucinatorIRQState) (rs rs1 : List Nat)
    (z : Int) (v : Nat) (hs : WellFormed s) (hrs : s.irq_regs = some rs) (hv : v < 256)
    (hst : store (some rs) z v = .ok rs1)
    (h : update_irq { s with irq_regs := some rs1 } = .ok t) : WellFormed t := by
  obtain ⟨hmax, hstat, rs0, hrs0, hlen, hb⟩ := hs
  rw [hrs] at hrs0
  cases hrs0
  obtain ⟨h1, _, _⟩ := store_inv rs rs1 z v hst
  subst h1
  have hw : WellFormed { s with irq_regs := some (rs.set z.toNat v) } :=
    ⟨hmax, hstat, rs.set z.toNat v, rfl, by simp [hlen], bytes_set rs _ v hb hv⟩
  exact wellFormed_of_update_irq _ t hw h

theorem wellFormed_of_write (s t : HalucinatorIRQState) (offset value size : Nat)
    (hs : WellFormed s) (h : halucinator_irqc_write s offset value size = .ok t) :
    WellFormed t := by
  obtain ⟨hmax, hstat, rs, hrs, hlen, hb⟩ := hs
  unfold halucinator_irqc_write at h
  split at h
  · have hw : WellFormed { s with status_reg := (value &&& 0xFFFFFFFF) % 2 ^ 32 } :=
      ⟨hmax, Nat.mod_lt _ (by norm_num), rs, hrs, hlen, hb⟩
    exact wellFormed_of_update_irq _ t hw h
  · split at h
    · rw [hrs] at h
      split at h
      · simp at h
      · next rs1 hst =>
        exact wellFormed_of_store_update s t rs rs1 _ _ ⟨hmax, hstat, rs, hrs, hlen, hb⟩ hrs
          (Nat.mod_lt _ (by norm_num)) hst h
    · simp only [Except.ok.injEq] at h
      subst h
      exact ⟨hmax, hstat, rs, hrs, hlen, hb⟩

theorem wellFormed_of_irq_handler (s t : HalucinatorIRQState) (irq level : Int)
    (hs : WellFormed s) (h : irq_handler s irq level = .ok t) : WellFormed t := by
  obtain ⟨hmax, hstat, rs, hrs, hlen, hb⟩ := hs
  unfold irq_handler at h
  split at h
  · rw [hrs] at h
    split at h
    · simp at h
    · split at h
      · simp at h
      · next rs1 hst =>
        refine wellFormed_of_store_update s t rs rs1 _ _ ⟨hmax, hstat, rs, hrs, hlen, hb⟩ hrs
          ?_ hst h
        split <;> exact Nat.mod_lt _ (by norm_num)
  · simp at h

theorem wellFormed_of_irq_setter (f : Nat → Nat) (hf : ∀ r, f r < 256)
    (s t : HalucinatorIRQState) (irq_num : Int)
    (hs : WellFormed s) (h : irq_setter f s irq_num = .ok t) : WellFormed t := by
  obtain ⟨hmax, hstat, rs, hrs, hlen, hb⟩ := hs
  unfold irq_setter at h
  rw [hrs] at h
  simp only at h
  split at h
  · simp only [Except.ok.injEq] at h
    subst h
    exact ⟨hmax, hstat, rs, hrs, hlen, hb⟩
  · split at h
    · simp at h
    · split at h
      · simp at h
      · next rs1 hst =>
        exact wellFormed_of_store_update s t rs rs1 _ _ ⟨hmax, hstat, rs, hrs, hlen, hb⟩ hrs
          (hf _) hst h

theorem wellFormed_of_step (s t : HalucinatorIRQState) (op : Op)
    (hs : WellFormed s) (h : step s op = .ok t) : WellFormed t := by
  cases op with
  | read offset size =>
    simp only [step] at h
    split at h
    · simp at h
    · simp only [Except.ok.injEq] at h
      subst h
      exact hs
  | write offset value size => exact wellFormed_of_write s t offset value size hs h
  | set_line irq level => exact wellFormed_of_irq_handler s t irq level hs h
  | debug_set irq_num =>
    exact wellFormed_of_irq_setter _ (fun _ => Nat.mod_lt _ (by norm_num)) s t irq_num hs h
  | debug_clear irq_num =>
    exact wellFormed_of_irq_setter _ (fun _ => Nat.mod_lt _ (by norm_num)) s t irq_num hs h
  | debug_enable irq_num =>
    exact wellFormed_of_irq_setter _ (fun _ => Nat.mod_lt _ (by norm_num)) s t irq_num hs h
  | debug_disable irq_num =>
    exact wellFormed_of_irq_setter _ (fun _ => Nat.mod_lt _ (by norm_num)) s t irq_num hs h

theorem wellFormed_of_realize (N : Nat) (hN : N ≤ INT_MAX) :
    WellFormed (halucinator_irq_realize (halucinator_irq_instance N)) := by
  refine ⟨hN, by simp [halucinator_irq_realize], List.replicate N 0, rfl,
    by simp [halucinator_irq_instance, halucinator_irq_realize], ?_⟩
  intro r hr
  rw [(List.mem_replicate.mp hr).2]
  decide

theorem wellFormed_of_run (N : Nat) (hN : N ≤ INT_MAX) (ops : List Op) (t : HalucinatorIRQState)
    (h : run (halucinator_irq_realize (halucinator_irq_instance N)) ops = .ok t) :
    WellFormed t := by
  have key : ∀ (ops : List Op) (s t : HalucinatorIRQState),
      WellFormed s → run s ops = .ok t → WellFormed t := by
    intro ops
    induction ops with
    | nil =>
      intro s t hs h
      simp only [run, Except.ok.injEq] at h
      subst h
      exact hs
    | cons op ops ih =>
      intro s t hs h
      simp only [run] at h
      split at h
      · simp at h
      · next u hstep => exact ih u t (wellFormed_of_step s u op hs hstep) h
  exact key ops _ t (wellFormed_of_realize N hN) h

theorem irq_setter_runs (f : Nat → Nat) (s : HalucinatorIRQState) (irq_num : Int)
    (hs : WellFormed s) : ∃ t, irq_setter f s irq_num = .ok t := by
  obtain ⟨hmax, _, rs, hrs, hlen, _⟩ := hs
  by_cases h : irq_num < 0 ∨ (s.num_irqs : Int) ≤ irq_num
  · exact ⟨s, irq_setter_out_of_range f s irq_num (Or.inr h)⟩
  · have h0 : 0 ≤ irq_num := by omega
    lift irq_num to Nat using h0 with n
    exact ⟨_, irq_setter_ok f s rs n hmax hrs hlen (by omega)⟩

theorem step_runs (s : HalucinatorIRQState) (op : Op) (hs : WellFormed s) (hv : valid_op s op) :
    ∃ t, step s op = .ok t := by
  have hs1 := hs
  obtain ⟨hmax, _, rs, hrs, hlen, hb⟩ := hs1
  cases op with
  | read offset size =>
    have hr : ∃ v, halucinator_irqc_read s offset size = .ok v := by
      rcases hv with h | h | ⟨hsz, h1, hin⟩
      · subst h
        exact ⟨_, by unfold halucinator_irqc_read; rw [if_pos rfl]⟩
      · by_cases h0 : offset = 0
        · subst h0
          exact ⟨_, by unfold halucinator_irqc_read; rw [if_pos rfl]⟩
        · exact ⟨0, read_invalid_ok s offset size hmax h0 h⟩
      · exact ⟨_, read_line_ok s offset size rs hmax hrs hlen hb h1 (by omega) hsz hin⟩
    obtain ⟨v, hv1⟩ := hr
    exact ⟨s, by simp only [step, hv1]⟩
  | write offset value size =>
    by_cases h0 : offset = 0
    · subst h0
      exact ⟨_, write_status_ok s rs value size hmax hrs hlen⟩
    · by_cases h : OFFSET_IRQ_N_REGS ≤ offset ∧ offset < OFFSET_IRQ_N_REGS + s.num_irqs
      · exact ⟨_, write_line_ok s rs offset value size hmax hrs hlen h.1 h.2⟩
      · exact ⟨s, write_invalid_ok s offset value size hmax h0 h⟩
  | set_line irq level =>
    obtain ⟨h0, h1⟩ := hv
    lift irq to Nat using h0 with n
    exact ⟨_, irq_handler_ok s rs n level hmax hrs hlen (by omega)⟩
  | debug_set irq_num => exact irq_setter_runs _ s irq_num hs
  | debug_clear irq_num => exact irq_setter_runs _ s irq_num hs
  | debug_enable irq_num => exact irq_setter_runs _ s irq_num hs
  | debug_disable irq_num => exact irq_setter_runs _ s irq_num hs

theorem four_lines_reachable :
    run (halucinator_irq_realize (halucinator_irq_instance 4))
      [.write 7 0x80 1, .write 4 3 1, .write 0 1 4] = .ok four_lines := by
  decide

theorem six_lines_realized :
    halucinator_irq_realize (halucinator_irq_instance 6) = six_lines := by
  decide

/-! ## The debug setters and the line input, line by line -/

theorem irq_setter_line (f : Nat → Nat) (hf : ∀ r, f r < 256) (s : HalucinatorIRQState)
    (rs : List Nat) (n : Nat) (hs : WellFormed s) (hrs : s.irq_regs = some rs)
    (hn : n < s.num_irqs) :
    ∃ t, irq_setter f s (n : Int) = .ok t ∧ WellFormed t ∧
      t.irq_regs = some (rs.set n (f (rs.getD n 0))) ∧
      t.status_reg = s.status_reg ∧ t.num_irqs = s.num_irqs ∧
      t.irq = driven_level s.status_reg (rs.set n (f (rs.getD n 0))) :: s.irq := by
  have hs1 := hs
  obtain ⟨hmax, _, rs0, hrs0, hlen, _⟩ := hs1
  rw [hrs] at hrs0
  cases hrs0
  have h := irq_setter_ok f s rs n hmax hrs hlen hn
  exact ⟨_, h, wellFormed_of_irq_setter f hf s _ _ hs h, rfl, rfl, rfl, rfl⟩

theorem irq_handler_eq_setter (s : HalucinatorIRQState) (n : Nat) (level : Int)
    (hs : WellFormed s) (hn : n < s.num_irqs) :
    irq_handler s (n : Int) level =
      irq_setter (fun r => if level ≠ 0 then (r ||| IRQ_N_ACTIVE) % 256
        else (r &&& not32 IRQ_N_ACTIVE) % 256) s (n : Int) := by
  obtain ⟨hmax, _, rs, hrs, hlen, _⟩ := hs
  rw [irq_handler_ok s rs n level hmax hrs hlen hn,
    irq_setter_ok _ s rs n hmax hrs hlen hn]

theorem irq_handler_line (s : HalucinatorIRQState) (rs : List Nat) (n : Nat) (level : Int)
    (hs : WellFormed s) (hrs : s.irq_regs = some rs) (hn : n < s.num_irqs) :
    ∃ t, irq_handler s (n : Int) level = .ok t ∧ WellFormed t ∧
      t.irq_regs = some (rs.set n (if level ≠ 0 then (rs.getD n 0 ||| IRQ_N_ACTIVE) % 256
        else (rs.getD n 0 &&& not32 IRQ_N_ACTIVE) % 256)) ∧
      t.status_reg = s.status_reg ∧ t.num_irqs = s.num_irqs ∧
      t.irq = driven_level s.status_reg
        (rs.set n (if level ≠ 0 then (rs.getD n 0 ||| IRQ_N_ACTIVE) % 256
          else (rs.getD n 0 &&& not32 IRQ_N_ACTIVE) % 256)) :: s.irq := by
  rw [irq_handler_eq_setter s n level hs hn]
  refine irq_setter_line _ ?_ s rs n hs hrs hn
  intro r
  split <;> exact Nat.mod_lt _ (by norm_num)

theorem irq_setter_or_mask (m : Nat) (hm : m < 256) (s : HalucinatorIRQState) (n : Nat)
    (hs : WellFormed s) (hn : n < s.num_irqs) :
    ∃ t, irq_setter (fun r => (r ||| m) % 256) s (n : Int) = .ok t ∧ WellFormed t ∧
      changes_only_mask m true n s t := by
  have hs1 := hs
  obtain ⟨_, _, rs, hrs, hlen, hb⟩ := hs1
  obtain ⟨t, h, hw, hr, hst, hnum, _⟩ :=
    irq_setter_line (fun r => (r ||| m) % 256) (fun _ => Nat.mod_lt _ (by norm_num)) s rs n hs
      hrs hn
  obtain ⟨hget, hlt⟩ := byte_at rs n hb (by omega)
  refine ⟨t, h, hw, rs, _, rs.getD n 0, (rs.getD n 0 ||| m) % 256, hrs, hr, by simp, hget,
    List.getElem?_set_self (by omega), ?_, ?_, ?_, ?_, hst, hnum⟩
  · rw [or_mask_byte _ _ hlt hm, or_mask_and_self]
    rfl
  · intro k hk
    rw [or_mask_byte _ _ hlt hm, testBit_or_mask _ _ _ hk]
  · intro e he
    rw [or_mask_byte _ _ hlt hm, or_mask_and_disjoint _ _ _ he]
  · intro j hj
    exact List.getElem?_set_ne (Ne.symm hj)

theorem irq_setter_and_not_mask (m : Nat) (s : HalucinatorIRQState) (n : Nat)
    (hs : WellFormed s) (hn : n < s.num_irqs) :
    ∃ t, irq_setter (fun r => (r &&& not32 m) % 256) s (n : Int) = .ok t ∧ WellFormed t ∧
      changes_only_mask m false n s t := by
  have hs1 := hs
  obtain ⟨_, _, rs, hrs, hlen, hb⟩ := hs1
  obtain ⟨t, h, hw, hr, hst, hnum, _⟩ :=
    irq_setter_line (fun r => (r &&& not32 m) % 256) (fun _ => Nat.mod_lt _ (by norm_num)) s rs n
      hs hrs hn
  obtain ⟨hget, hlt⟩ := byte_at rs n hb (by omega)
  refine ⟨t, h, hw, rs, _, rs.getD n 0, (rs.getD n 0 &&& not32 m) % 256, hrs, hr, by simp, hget,
    List.getElem?_set_self (by omega), ?_, ?_, ?_, ?_, hst, hnum⟩
  · rw [and_not_mask_byte _ _ hlt, and_not_mask_and_self _ _ hlt]
    rfl
  · intro k hk
    rw [and_not_mask_byte _ _ hlt, testBit_and_not_mask _ _ _ hlt hk]
  · intro e he
    rw [and_not_mask_byte _ _ hlt, and_not_mask_and_disjoint _ _ _ hlt he]
  · intro j hj
    exact List.getElem?_set_ne (Ne.symm hj)

theorem irq_setter_or_then_and_not (m e : Nat) (hm : m < 256) (hme : m &&& e = 0)
    (s : HalucinatorIRQState) (n : Nat) (hs : WellFormed s) (hn : n < s.num_irqs) :
    ∃ t1 t2 rs rs2 r r2, irq_setter (fun r => (r ||| m) % 256) s (n : Int) = .ok t1 ∧
      irq_setter (fun r => (r &&& not32 m) % 256) t1 (n : Int) = .ok t2 ∧
      s.irq_regs = some rs ∧ t2.irq_regs = some rs2 ∧
      rs[n]? = some r ∧ rs2[n]? = some r2 ∧
      r2 &&& m = 0 ∧ (r &&& m = 0 → r2 &&& m = r &&& m) ∧ r2 &&& e = r &&& e := by
  obtain ⟨t1, h1, w1, rs, rs1, r, r1, hrs, hrs1, _, hr, hr1, _, _, he1, _, _, hnum1⟩ :=
    irq_setter_or_mask m hm s n hs hn
  obtain ⟨t2, h2, _, rs1b, rs2, r1b, r2, hrs1b, hrs2, _, hr1b, hr2, hm2, _, he2, _, _, _⟩ :=
    irq_setter_and_not_mask m t1 n w1 (by omega)
  rw [hrs1] at hrs1b
  cases hrs1b
  rw [hr1] at hr1b
  cases hr1b
  refine ⟨t1, t2, rs, rs2, r, r2, h1, h2, hrs, hrs2, hr, hr2, by simpa using hm2, ?_, ?_⟩
  · intro hz
    rw [hz]
    simpa using hm2
  · rw [he2 e hme, he1 e hme]

/-! ## Raising and lowering one line -/

theorem driven_level_iff (st : Nat) (rs : List Nat) :
    driven_level st rs = true ↔
      st &&& GLOBAL_IRQ_ENABLED ≠ 0 ∧
        ∃ (j : Nat) (r : Nat), rs[j]? = some r ∧ r &&& IRQ_N_ACTIVE ≠ 0 ∧
          r &&& IRQ_N_ENABLED ≠ 0 := by
  unfold driven_level
  simp only [Bool.and_eq_true, decide_eq_true_eq, List.any_eq_true, line_active_iff]
  constructor
  · rintro ⟨hg, r, hmem, ha, he⟩
    obtain ⟨j, hj⟩ := List.mem_iff_getElem?.mp hmem
    exact ⟨hg, j, r, hj, ha, he⟩
  · rintro ⟨hg, j, r, hj, ha, he⟩
    exact ⟨hg, r, List.mem_iff_getElem?.mpr ⟨j, hj⟩, ha, he⟩

theorem getElem?_set_cases (rs : List Nat) (n v j : Nat) (hn : n < rs.length) :
    (rs.set n v)[j]? = if n = j then some v else rs[j]? := by
  rw [List.getElem?_set, if_pos hn]

theorem driven_level_set_active (st : Nat) (rs : List Nat) (n v : Nat) (hn : n < rs.length)
    (hg : st &&& GLOBAL_IRQ_ENABLED ≠ 0) (ha : v &&& IRQ_N_ACTIVE ≠ 0)
    (he : v &&& IRQ_N_ENABLED ≠ 0) : driven_level st (rs.set n v) = true := by
  rw [driven_level_iff]
  exact ⟨hg, n, v, by rw [getElem?_set_cases rs n v n hn, if_pos rfl], ha, he⟩

theorem driven_level_set_inactive (st : Nat) (rs : List Nat) (n v : Nat) (hn : n < rs.length)
    (hg : st &&& GLOBAL_IRQ_ENABLED ≠ 0)
    (hv : v &&& IRQ_N_ACTIVE = 0 ∨ v &&& IRQ_N_ENABLED = 0) :
    driven_level st (rs.set n v) = true ↔
      ∃ (j : Nat) (r : Nat), j ≠ n ∧ rs[j]? = some r ∧ r &&& IRQ_N_ACTIVE ≠ 0 ∧
        r &&& IRQ_N_ENABLED ≠ 0 := by
  rw [driven_level_iff]
  constructor
  · rintro ⟨_, j, r, hj, ha, he⟩
    rw [getElem?_set_cases rs n v j hn] at hj
    by_cases hnj : n = j
    · rw [if_pos hnj] at hj
      cases hj
      rcases hv with h | h
      · exact absurd h ha
      · exact absurd h he
    · rw [if_neg hnj] at hj
      exact ⟨j, r, Ne.symm hnj, hj, ha, he⟩
  · rintro ⟨j, r, hjn, hj, ha, he⟩
    refine ⟨hg, j, r, ?_, ha, he⟩
    rw [getElem?_set_cases rs n v j hn, if_neg (Ne.symm hjn)]
    exact hj

theorem irq_level_of_irq (t : HalucinatorIRQState) (b : Bool) (l : List Bool)
    (h : t.irq = b :: l) : irq_level t = b := by
  unfold irq_level
  rw [h]
  rfl

theorem raise_lower_after_enable_line (s : HalucinatorIRQState) (rs : List Nat) (n : Nat) (level : Int)
    (hs : WellFormed s) (hrs : s.irq_regs = some rs) (hn : n < s.num_irqs)
    (hg : s.status_reg &&& GLOBAL_IRQ_ENABLED ≠ 0) (hl : level ≠ 0) :
    ∃ t1 t2 t3, halucinator_irq_enable_irq_setter s (n : Int) = .ok t1 ∧
      irq_handler t1 (n : Int) level = .ok t2 ∧ irq_level t2 = true ∧
      irq_handler t2 (n : Int) 0 = .ok t3 ∧
      (irq_level t3 = true ↔
        ∃ (j : Nat) (r : Nat), j ≠ n ∧ rs[j]? = some r ∧ r &&& IRQ_N_ACTIVE ≠ 0 ∧
          r &&& IRQ_N_ENABLED ≠ 0) := by
  have hs1 := hs
  obtain ⟨_, _, rs0, hrs0, hlen, hb⟩ := hs1
  rw [hrs] at hrs0
  cases hrs0
  have hnl : n < rs.length := by omega
  obtain ⟨_, hr⟩ := byte_at rs n hb hnl
  have hA : IRQ_N_ACTIVE < 256 := by decide
  have hE : IRQ_N_ENABLED < 256 := by decide
  have hAE : IRQ_N_ACTIVE &&& IRQ_N_ENABLED = 0 := by decide
  have hA0 : IRQ_N_ACTIVE ≠ 0 := by decide
  have hE0 : IRQ_N_ENABLED ≠ 0 := by decide
  -- the values line `n` takes
  have v1 : (rs.getD n 0 ||| IRQ_N_ENABLED) % 256 = rs.getD n 0 ||| IRQ_N_ENABLED :=
    or_mask_byte _ _ hr hE
  have v1lt : rs.getD n 0 ||| IRQ_N_ENABLED < 256 := Nat.or_lt_two_pow (n := 8) hr hE
  have v2 : (rs.getD n 0 ||| IRQ_N_ENABLED ||| IRQ_N_ACTIVE) % 256 =
      rs.getD n 0 ||| IRQ_N_ENABLED ||| IRQ_N_ACTIVE := or_mask_byte _ _ v1lt hA
  have v2lt : rs.getD n 0 ||| IRQ_N_ENABLED ||| IRQ_N_ACTIVE < 256 :=
    Nat.or_lt_two_pow (n := 8) v1lt hA
  obtain ⟨t1, h1, w1, r1, st1, n1, _⟩ :=
    irq_setter_line (fun r => (r ||| IRQ_N_ENABLED) % 256)
      (fun _ => Nat.mod_lt _ (by norm_num)) s rs n hs hrs hn
  simp only [v1] at r1
  obtain ⟨t2, h2, w2, r2, st2, n2, i2⟩ :=
    irq_handler_line t1 _ n level w1 r1 (by omega)
  simp only [getD_set_self rs n _ hnl, List.set_set, if_pos hl, v2] at r2 i2
  obtain ⟨t3, h3, _, _, _, _, i3⟩ := irq_handler_line t2 _ n 0 w2 r2 (by omega)
  simp only [getD_set_self rs n _ hnl, List.set_set, ne_eq, not_true_eq_false, if_false,
    and_not_mask_byte _ _ v2lt] at i3
  refine ⟨t1, t2, t3, h1, h2, ?_, h3, ?_⟩
  · rw [irq_level_of_irq t2 _ _ i2, st1]
    refine driven_level_set_active _ rs n _ hnl hg ?_ ?_
    · rw [or_mask_and_self]
      exact hA0
    · rw [or_mask_and_disjoint _ _ _ hAE, or_mask_and_self]
      exact hE0
  · rw [irq_level_of_irq t3 _ _ i3, st2, st1]
    exact driven_level_set_inactive _ rs n _ hnl hg
      (Or.inl (and_not_mask_and_self _ _ v2lt))

/-! ## The scenario on a freshly realized controller -/

theorem getD_replicate_zero (N i : Nat) : (List.replicate N 0).getD i 0 = 0 := by
  rw [List.getD_eq_getElem?_getD, List.getElem?_replicate]
  split <;> rfl

theorem driven_level_set_zero (st N i v : Nat) (hi : i < N)
    (hg : st &&& GLOBAL_IRQ_ENABLED ≠ 0)
    (hv : v &&& IRQ_N_ACTIVE = 0 ∨ v &&& IRQ_N_ENABLED = 0) :
    driven_level st ((List.replicate N 0).set i v) = false := by
  rw [← Bool.not_eq_true, driven_level_set_inactive st _ i v (by simpa using hi) hg hv]
  rintro ⟨j, r, _, hj, ha, _⟩
  rw [List.getElem?_replicate] at hj
  split at hj
  · cases hj
    exact ha (by decide)
  · cases hj

theorem scenario_line (N i size : Nat) (hN : N ≤ INT_MAX) (hi : i < N) :
    ∃ t1 t2 t3 t4 t5 t6,
      halucinator_irq_enable_irq_setter (halucinator_irq_realize (halucinator_irq_instance N))
        (i : Int) = .ok t1 ∧
      halucinator_irqc_write t1 0 GLOBAL_IRQ_ENABLED size = .ok t2 ∧
      irq_handler t2 (i : Int) 1 = .ok t3 ∧ irq_level t3 = true ∧
      irq_handler t3 (i : Int) 0 = .ok t4 ∧ irq_level t4 = false ∧
      halucinator_irq_disable_irq_setter t4 (i : Int) = .ok t5 ∧
      irq_handler t5 (i : Int) 1 = .ok t6 ∧ irq_level t6 = false := by
  have w0 := wellFormed_of_realize N hN
  have hz : i < (List.replicate N 0).length := by simpa using hi
  have hg : GLOBAL_IRQ_ENABLED % 2 ^ 32 &&& GLOBAL_IRQ_ENABLED ≠ 0 := by decide
  -- enable
  obtain ⟨t1, h1, w1, r1, st1, n1, _⟩ :=
    irq_setter_line (fun r => (r ||| IRQ_N_ENABLED) % 256)
      (fun _ => Nat.mod_lt _ (by norm_num)) _ (List.replicate N 0) i w0 rfl hi
  simp only [getD_replicate_zero, show (0 ||| IRQ_N_ENABLED) % 256 = 2 by decide] at r1
  have hn1 : t1.num_irqs = N := n1
  -- global enable
  obtain ⟨t2, h2, r2, st2, n2⟩ : ∃ t2, halucinator_irqc_write t1 0 GLOBAL_IRQ_ENABLED size = .ok t2 ∧
      t2.irq_regs = some ((List.replicate N 0).set i 2) ∧
      t2.status_reg = GLOBAL_IRQ_ENABLED % 2 ^ 32 ∧ t2.num_irqs = N :=
    ⟨_, write_status_ok t1 _ GLOBAL_IRQ_ENABLED size w1.1 r1 (by simp [hn1]), r1, rfl, hn1⟩
  have w2 := wellFormed_of_write t1 t2 0 GLOBAL_IRQ_ENABLED size w1 h2
  -- raise
  obtain ⟨t3, h3, w3, r3, st3, n3, i3⟩ :=
    irq_handler_line t2 ((List.replicate N 0).set i 2) i 1 w2 r2 (by omega)
  simp only [getD_set_self _ i _ hz, List.set_set, if_pos (by decide : (1 : Int) ≠ 0),
    show (2 ||| IRQ_N_ACTIVE) % 256 = 3 by decide] at r3 i3
  have l3 : irq_level t3 = true := by
    rw [irq_level_of_irq t3 _ _ i3, st2]
    exact driven_level_set_active _ _ i 3 hz hg (by decide) (by decide)
  -- lower
  obtain ⟨t4, h4, w4, r4, st4, n4, i4⟩ :=
    irq_handler_line t3 ((List.replicate N 0).set i 3) i 0 w3 r3 (by omega)
  simp only [getD_set_self _ i _ hz, List.set_set, if_neg (by decide : ¬ (0 : Int) ≠ 0),
    show (3 &&& not32 IRQ_N_ACTIVE) % 256 = 2 by decide] at r4 i4
  have hg3 : t3.status_reg &&& GLOBAL_IRQ_ENABLED ≠ 0 := by
    rw [st3, st2]
    exact hg
  have l4 : irq_level t4 = false := by
    rw [irq_level_of_irq t4 _ _ i4]
    exact driven_level_set_zero _ N i 2 hi hg3 (Or.inl (by decide))
  -- disable
  obtain ⟨t5, h5, w5, r5, st5, n5, _⟩ :=
    irq_setter_line (fun r => (r &&& not32 IRQ_N_ENABLED) % 256)
      (fun _ => Nat.mod_lt _ (by norm_num)) t4 ((List.replicate N 0).set i 2) i w4 r4 (by omega)
  simp only [getD_set_self _ i _ hz, List.set_set,
    show (2 &&& not32 IRQ_N_ENABLED) % 256 = 0 by decide] at r5
  -- raise again
  obtain ⟨t6, h6, _, _, _, _, i6⟩ :=
    irq_handler_line t5 ((List.replicate N 0).set i 0) i 1 w5 r5 (by omega)
  simp only [getD_set_self _ i _ hz, List.set_set, if_pos (by decide : (1 : Int) ≠ 0),
    show (0 ||| IRQ_N_ACTIVE) % 256 = 1 by decide] at i6
  have hg5 : t5.status_reg &&& GLOBAL_IRQ_ENABLED ≠ 0 := by
    rw [st5, st4]
    exact hg3
  have l6 : irq_level t6 = false := by
    rw [irq_level_of_irq t6 _ _ i6]
    exact driven_level_set_zero _ N i 1 hi hg5 (Or.inr (by decide))
  exact ⟨t1, t2, t3, t4, t5, t6, h1, h2, h3, l3, h4, l4, h5, h6, l6⟩

theorem wellFormed_four_lines_reserved : WellFormed four_lines_reserved :=
  ⟨by decide, by decide, [0xFF, 0xFC, 0x04, 0], rfl, rfl, by decide⟩

theorem driven_level_congr (st1 st2 : Nat) (rs1 rs2 : List Nat)
    (hlen : rs1.length = rs2.length)
    (hst : st1 &&& GLOBAL_IRQ_ENABLED = st2 &&& GLOBAL_IRQ_ENABLED)
    (hlines : ∀ i, i < rs1.length →
      rs1.getD i 0 &&& IRQ_N_ACTIVE = rs2.getD i 0 &&& IRQ_N_ACTIVE ∧
      rs1.getD i 0 &&& IRQ_N_ENABLED = rs2.getD i 0 &&& IRQ_N_ENABLED) :
    driven_level st1 rs1 = driven_level st2 rs2 := by
  rw [Bool.eq_iff_iff, driven_level_iff, driven_level_iff, hst]
  constructor
  · rintro ⟨hg, j, r, hj, ha, he⟩
    obtain ⟨hlt, _⟩ := List.getElem?_eq_some_iff.mp hj
    obtain ⟨e1, e2⟩ := hlines j hlt
    have hj2 := List.getElem?_eq_getElem (l := rs2) (n := j) (by omega)
    rw [getD_of_getElem? rs1 j r hj, getD_of_getElem? rs2 j _ hj2] at e1 e2
    exact ⟨hg, j, _, hj2, by rw [← e1]; exact ha, by rw [← e2]; exact he⟩
  · rintro ⟨hg, j, r, hj, ha, he⟩
    obtain ⟨hlt, _⟩ := List.getElem?_eq_some_iff.mp hj
    obtain ⟨e1, e2⟩ := hlines j (by omega)
    have hj1 := List.getElem?_eq_getElem (l := rs1) (n := j) (by omega)
    rw [getD_of_getElem? rs2 j r hj, getD_of_getElem? rs1 j _ hj1] at e1 e2
    exact ⟨hg, j, _, hj1, by rw [e1]; exact ha, by rw [e2]; exact he⟩

/-! ## The read as a call on the controller -/

theorem irqc_read_loop_call_spec (offset : Nat) :
    ∀ (n i ret : Nat) (s : HalucinatorIRQState),
      (irqc_read_loop_call offset n i ret s).2 = s ∧
      (irqc_read_loop_call offset n i ret s).1 = irqc_read_loop s offset n i ret := by
  intro n
  induction n with
  | zero =>
    intro i ret s
    exact ⟨rfl, rfl⟩
  | succ n ih =>
    intro i ret s
    rw [irqc_read_loop_call, irqc_read_loop, load_call]
    cases load s.irq_regs (((offset - OFFSET_IRQ_N_REGS + i) % 2 ^ 64 : Nat) : Int) with
    | error e => exact ⟨rfl, rfl⟩
    | ok r =>
      dsimp only
      cases shl_int (r &&& 0xFF) (i * 8) with
      | error e => exact ⟨rfl, rfl⟩
      | ok t => exact ih (i + 1) (ret ||| uint64 t) s

theorem read_call_state (s : HalucinatorIRQState) (offset size : Nat) :
    (halucinator_irqc_read_call s offset size).2 = s := by
  unfold halucinator_irqc_read_call
  split
  · rfl
  · split
    · exact (irqc_read_loop_call_spec offset size 0 0 s).1
    · rfl

theorem read_call_result (s : HalucinatorIRQState) (offset size : Nat) :
    (halucinator_irqc_read_call s offset size).1 = halucinator_irqc_read s offset size := by
  unfold halucinator_irqc_read_call halucinator_irqc_read
  split
  · rfl
  · split
    · exact (irqc_read_loop_call_spec offset size 0 0 s).2
    · rfl

theorem step_read_eq_call (s : HalucinatorIRQState) (offset size : Nat) :
    step s (.read offset size) =
      match (halucinator_irqc_read_call s offset size).1 with
      | .error e => .error e
      | .ok _ => .ok (halucinator_irqc_read_call s offset size).2 := by
  rw [read_call_state, read_call_result]
  rfl

theorem update_irq_ne_self (s t : HalucinatorIRQState) (h : update_irq s = .ok t) : t ≠ s := by
  unfold update_irq at h
  have hlen : t.irq.length = s.irq.length + 1 := by
    split at h
    · simp at h
    · split at h <;> simp only [Except.ok.injEq] at h <;> subst h <;> simp [qemu_set_irq]
  intro heq
  rw [heq] at hlen
  omega

theorem read_call_four_lines :
    halucinator_irqc_read_call four_lines 4 4 = (.ok 0xFFFFFFFF80000003, four_lines) ∧
    halucinator_irqc_read_call four_lines 0 4 = (.ok 1, four_lines) ∧
    halucinator_irqc_read_call four_lines 100 4 = (.ok 0, four_lines) ∧
    halucinator_irqc_read_call six_lines 8 4 = (.error (.outOfBounds 6), six_lines) := by
  decide

/-! ## Properties of the specification -/

/-- C1: from a freshly realized controller, after every finite sequence of
operations that runs (reads, writes, line inputs with a valid index, debug
setters with any index), the level last driven on the output is true if and
only if the global enable bit of the status word is set and some line below
`num_irqs` has both its ACTIVE and its ENABLED bit set. -/
theorem output_follows_aggregate_on_reachable (N : Nat) (ops : List Op) (s : HalucinatorIRQState)
    (h : run (halucinator_irq_realize (halucinator_irq_instance N)) ops = .ok s) :
    irq_level s = true ↔
      (s.status_reg &&& GLOBAL_IRQ_ENABLED ≠ 0 ∧
        ∃ i rs r, i < s.num_irqs ∧ s.irq_regs = some rs ∧ rs[i]? = some r ∧
          r &&& IRQ_N_ACTIVE ≠ 0 ∧ r &&& IRQ_N_ENABLED ≠ 0) :=
  (invariant_of_run ops _ s (invariant_of_realize N) h).2

/-- Witness of C1: four lines, line 2 enabled, global enable written, line 2 raised. -/
theorem output_follows_aggregate_on_reachable_witness :
    run (halucinator_irq_realize (halucinator_irq_instance 4))
        [.debug_enable 2, .write 0 1 4, .read 4 4, .set_line 2 1, .debug_set 100]
      = .ok { irq := [true, false, false], irq_regs := some [0, 0, 3, 0], num_irqs := 4,
              status_reg := 1 } ∧
    (irq_level { irq := [true, false, false], irq_regs := some [0, 0, 3, 0], num_irqs := 4,
                 status_reg := 1 } = true ↔
      ((1 : Nat) &&& GLOBAL_IRQ_ENABLED ≠ 0 ∧
        ∃ i rs r, i < 4 ∧ some [0, 0, 3, 0] = some rs ∧ rs[i]? = some r ∧
          r &&& IRQ_N_ACTIVE ≠ 0 ∧ r &&& IRQ_N_ENABLED ≠ 0)) :=
  ⟨by decide,
   output_follows_aggregate_on_reachable 4
     [.debug_enable 2, .write 0 1 4, .read 4 4, .set_line 2 1, .debug_set 100] _ (by decide)⟩

/-- C2: for every `num_irqs = N > 0`, right after `halucinator_irq_realize` the
status word is 0, the line storage holds exactly `N` registers, every one of
them 0 (ACTIVE and ENABLED clear), and the output is deasserted: it was never
driven. -/
theorem realize_zeroes_controller (N : Nat) (_hN : 0 < N) :
    (halucinator_irq_realize (halucinator_irq_instance N)).status_reg = 0 ∧
    (halucinator_irq_realize (halucinator_irq_instance N)).num_irqs = N ∧
    (∃ rs, (halucinator_irq_realize (halucinator_irq_instance N)).irq_regs = some rs ∧
      rs.length = N ∧
      ∀ i, i < N → rs[i]? = some 0 ∧ 0 &&& IRQ_N_ACTIVE = 0 ∧ 0 &&& IRQ_N_ENABLED = 0) ∧
    (halucinator_irq_realize (halucinator_irq_instance N)).irq = [] ∧
    irq_level (halucinator_irq_realize (halucinator_irq_instance N)) = false := by
  refine ⟨rfl, rfl, ⟨List.replicate N 0, rfl, by simp, ?_⟩, rfl, rfl⟩
  intro i hi
  exact ⟨List.getElem?_replicate_of_lt hi, by simp, by simp⟩

/-- Witness of C2: a controller with four lines. -/
theorem realize_zeroes_controller_witness :
    (halucinator_irq_realize (halucinator_irq_instance 4)).status_reg = 0 ∧
    (halucinator_irq_realize (halucinator_irq_instance 4)).num_irqs = 4 ∧
    (∃ rs, (halucinator_irq_realize (halucinator_irq_instance 4)).irq_regs = some rs ∧
      rs.length = 4 ∧
      ∀ i, i < 4 → rs[i]? = some 0 ∧ 0 &&& IRQ_N_ACTIVE = 0 ∧ 0 &&& IRQ_N_ENABLED = 0) ∧
    (halucinator_irq_realize (halucinator_irq_instance 4)).irq = [] ∧
    irq_level (halucinator_irq_realize (halucinator_irq_instance 4)) = false :=
  realize_zeroes_controller 4 (by decide)

/-- C3: on every well-formed controller, a write to offset 0 of a value whose
GLOBAL_IRQ_ENABLED bit is clear leaves the output deasserted, whatever the lines
hold, and leaves the line registers as they were. -/
theorem write_global_clear_deasserts (s : HalucinatorIRQState) (v size : Nat)
    (hs : WellFormed s) (hv : v &&& GLOBAL_IRQ_ENABLED = 0) :
    ∃ t, halucinator_irqc_write s 0 v size = .ok t ∧ irq_level t = false ∧
      t.irq_regs = s.irq_regs := by
  obtain ⟨hmax, _, rs, hrs, hlen, _⟩ := hs
  refine ⟨_, write_status_ok s rs v size hmax hrs hlen, ?_, rfl⟩
  have hg : v % 2 ^ 32 &&& GLOBAL_IRQ_ENABLED = 0 := by
    unfold GLOBAL_IRQ_ENABLED at hv ⊢
    rw [Nat.and_one_is_mod] at hv ⊢
    omega
  have hd : driven_level (v % 2 ^ 32) rs = false := by
    unfold driven_level
    rw [hg]
    simp
  rw [hd]
  rfl

/-- Witness of C3: line 0 is active and enabled and the output asserted; writing 2
(bit 0 clear) to the status word deasserts the output. -/
theorem write_global_clear_deasserts_witness :
    WellFormed four_lines ∧ 2 &&& GLOBAL_IRQ_ENABLED = 0 ∧ irq_level four_lines = true ∧
    ∃ t, halucinator_irqc_write four_lines 0 2 4 = .ok t ∧ irq_level t = false ∧
      t.irq_regs = four_lines.irq_regs :=
  ⟨wellFormed_four_lines, by decide, by decide,
   write_global_clear_deasserts four_lines 2 4 wellFormed_four_lines (by decide)⟩

/-- C4: on every well-formed controller, a write of any value with any access
size to a valid per-line offset sets the addressed line register to
`value & 0xFF` and leaves every other line register, the status word and
`num_irqs` as they were: no second byte is written. -/
theorem line_write_sets_one_byte (s : HalucinatorIRQState) (offset value size : Nat)
    (hs : WellFormed s) (h1 : OFFSET_IRQ_N_REGS ≤ offset)
    (h2 : offset < OFFSET_IRQ_N_REGS + s.num_irqs) :
    ∃ t rs rs1, halucinator_irqc_write s offset value size = .ok t ∧
      s.irq_regs = some rs ∧ t.irq_regs = some rs1 ∧ rs1.length = rs.length ∧
      rs1[offset - OFFSET_IRQ_N_REGS]? = some (value &&& 0xFF) ∧
      (∀ j, j ≠ offset - OFFSET_IRQ_N_REGS → rs1[j]? = rs[j]?) ∧
      t.status_reg = s.status_reg ∧ t.num_irqs = s.num_irqs := by
  obtain ⟨hmax, _, rs, hrs, hlen, _⟩ := hs
  refine ⟨_, rs, _, write_line_ok s rs offset value size hmax hrs hlen h1 h2, hrs, rfl,
    by simp, ?_, ?_, rfl, rfl⟩
  · exact List.getElem?_set_self (by omega)
  · intro j hj
    exact List.getElem?_set_ne (Ne.symm hj)

/-- Witness of C4: a four-byte write of `0x1234` to line 1 stores `0x34` there. -/
theorem line_write_sets_one_byte_witness :
    WellFormed four_lines ∧ OFFSET_IRQ_N_REGS ≤ 5 ∧ 5 < OFFSET_IRQ_N_REGS + four_lines.num_irqs ∧
    ∃ t rs rs1, halucinator_irqc_write four_lines 5 0x1234 4 = .ok t ∧
      four_lines.irq_regs = some rs ∧ t.irq_regs = some rs1 ∧ rs1.length = rs.length ∧
      rs1[5 - OFFSET_IRQ_N_REGS]? = some (0x1234 &&& 0xFF) ∧
      (∀ j, j ≠ 5 - OFFSET_IRQ_N_REGS → rs1[j]? = rs[j]?) ∧
      t.status_reg = four_lines.status_reg ∧ t.num_irqs = four_lines.num_irqs :=
  ⟨wellFormed_four_lines, by decide, by decide,
   line_write_sets_one_byte four_lines 5 0x1234 4 wellFormed_four_lines (by decide) (by decide)⟩

/-- C5, evaluated where it fails: with line 3 holding `0x80`, the four-byte read
at the first per-line offset returns `0xFFFFFFFF80000003`, while the
little-endian packing of the four bytes is `0x80000003`: bits 32 to 63 are set. -/
theorem read_sign_extends_byte_three :
    run (halucinator_irq_realize (halucinator_irq_instance 4))
      [.write 7 0x80 1, .write 4 3 1, .write 0 1 4] = .ok four_lines ∧
    four_lines.irq_regs = some [3, 0, 0, 0x80] ∧
    OFFSET_IRQ_N_REGS ≤ 4 ∧ 4 - OFFSET_IRQ_N_REGS + 4 ≤ four_lines.num_irqs ∧
    halucinator_irqc_read four_lines 4 4 = .ok 0xFFFFFFFF80000003 ∧
    little_endian [3, 0, 0, 0x80] (4 - OFFSET_IRQ_N_REGS) 4 = 0x80000003 :=
  ⟨by decide, rfl, by decide, by decide, by decide, by decide⟩

/-- C6: on every well-formed controller, for every byte `b`, every valid per-line
offset and every size among 1, 2 and 4 that stays within the line registers, a
write of `b` followed by a read at the same offset and size returns a value
whose low byte is `b` and whose byte `k`, for `1 ≤ k < size`, is the line
register at index `offset - OFFSET_IRQ_N_REGS + k` as it was before the write. -/
theorem line_write_read_round_trip (s : HalucinatorIRQState) (offset size b : Nat)
    (hs : WellFormed s) (hb : b < 256)
    (h1 : OFFSET_IRQ_N_REGS ≤ offset) (h2 : offset < OFFSET_IRQ_N_REGS + s.num_irqs)
    (hsize : size = 1 ∨ size = 2 ∨ size = 4)
    (hin : offset - OFFSET_IRQ_N_REGS + size ≤ s.num_irqs) :
    ∃ t v rs, s.irq_regs = some rs ∧ halucinator_irqc_write s offset b size = .ok t ∧
      halucinator_irqc_read t offset size = .ok v ∧ v % 256 = b ∧
      ∀ k, 1 ≤ k → k < size →
        rs[offset - OFFSET_IRQ_N_REGS + k]? = some (v / 2 ^ (8 * k) % 256) := by
  obtain ⟨hmax, _, rs, hrs, hlen, hbytes⟩ := hs
  have hbv : b &&& 0xFF = b := by rw [and_mask8]; omega
  have hw := write_line_ok s rs offset b size hmax hrs hlen h1 h2
  rw [hbv] at hw
  have hr := read_line_ok
    (qemu_set_irq { s with irq_regs := some (rs.set (offset - OFFSET_IRQ_N_REGS) b) }
      (driven_level s.status_reg (rs.set (offset - OFFSET_IRQ_N_REGS) b)))
    offset size (rs.set (offset - OFFSET_IRQ_N_REGS) b) hmax
    rfl (by simp [hlen, qemu_set_irq]) (bytes_set rs _ b hbytes hb) h1 h2 hsize hin
  have hlow : (rs.set (offset - OFFSET_IRQ_N_REGS) b).getD (offset - OFFSET_IRQ_N_REGS + 0) 0 = b :=
    getD_set_self rs _ b (by omega)
  have hhigh : ∀ k, 1 ≤ k → k < size →
      (rs.set (offset - OFFSET_IRQ_N_REGS) b).getD (offset - OFFSET_IRQ_N_REGS + k) 0 =
        rs.getD (offset - OFFSET_IRQ_N_REGS + k) 0 ∧
      rs[offset - OFFSET_IRQ_N_REGS + k]? = some (rs.getD (offset - OFFSET_IRQ_N_REGS + k) 0) ∧
      rs.getD (offset - OFFSET_IRQ_N_REGS + k) 0 < 256 := by
    intro k hk1 hk2
    exact ⟨getD_set_ne rs _ _ b (by omega), byte_at rs _ hbytes (by omega)⟩
  rcases hsize with rfl | rfl | rfl
  · rw [little_endian_one, hlow, if_neg (by omega)] at hr
    exact ⟨_, _, rs, hrs, hw, hr, by omega, fun k hk1 hk2 => by omega⟩
  · obtain ⟨e1, g1, b1⟩ := hhigh 1 (by omega) (by omega)
    rw [little_endian_two, hlow, e1, if_neg (by omega)] at hr
    refine ⟨_, _, rs, hrs, hw, hr, by omega, fun k hk1 hk2 => ?_⟩
    have hk : k = 1 := by omega
    subst hk
    rw [g1, show (2 : Nat) ^ (8 * 1) = 256 by norm_num]
    congr 1
    omega
  · obtain ⟨e1, g1, b1⟩ := hhigh 1 (by omega) (by omega)
    obtain ⟨e2, g2, b2⟩ := hhigh 2 (by omega) (by omega)
    obtain ⟨e3, g3, b3⟩ := hhigh 3 (by omega) (by omega)
    rw [little_endian_four, hlow, e1, e2, e3] at hr
    obtain ⟨e, he, hr1⟩ : ∃ e, (e = 0 ∨ e = 0xFFFFFFFF00000000) ∧
        halucinator_irqc_read
          (qemu_set_irq { s with irq_regs := some (rs.set (offset - OFFSET_IRQ_N_REGS) b) }
            (driven_level s.status_reg (rs.set (offset - OFFSET_IRQ_N_REGS) b))) offset 4 =
          .ok (b + 256 * rs.getD (offset - OFFSET_IRQ_N_REGS + 1) 0 +
            65536 * rs.getD (offset - OFFSET_IRQ_N_REGS + 2) 0 +
            16777216 * rs.getD (offset - OFFSET_IRQ_N_REGS + 3) 0 + e) :=
      ⟨_, by split <;> simp, hr⟩
    obtain ⟨p0, p1, p2, p3⟩ := packed_bytes b _ _ _ e hb b1 b2 b3 he
    refine ⟨_, _, rs, hrs, hw, hr1, p0, fun k hk1 hk2 => ?_⟩
    have hk : k = 1 ∨ k = 2 ∨ k = 3 := by omega
    rcases hk with rfl | rfl | rfl
    · rw [g1, p1]
    · rw [g2, p2]
    · rw [g3, p3]

/-- Witness of C6: `0x7F` written with a four-byte access to line 0 and read
back with the same access. -/
theorem line_write_read_round_trip_witness :
    WellFormed four_lines ∧ 0x7F < 256 ∧ OFFSET_IRQ_N_REGS ≤ 4 ∧
    4 < OFFSET_IRQ_N_REGS + four_lines.num_irqs ∧ (4 = 1 ∨ 4 = 2 ∨ 4 = 4) ∧
    4 - OFFSET_IRQ_N_REGS + 4 ≤ four_lines.num_irqs ∧
    ∃ t v rs, four_lines.irq_regs = some rs ∧
      halucinator_irqc_write four_lines 4 0x7F 4 = .ok t ∧
      halucinator_irqc_read t 4 4 = .ok v ∧ v % 256 = 0x7F ∧
      ∀ k, 1 ≤ k → k < 4 → rs[4 - OFFSET_IRQ_N_REGS + k]? = some (v / 2 ^ (8 * k) % 256) :=
  ⟨wellFormed_four_lines, by decide, by decide, by decide, by decide, by decide,
   line_write_read_round_trip four_lines 4 4 0x7F wellFormed_four_lines (by decide) (by decide)
     (by decide) (by decide) (by decide)⟩

/-- C7, evaluated where it fails: on a controller with six lines, the four-byte
read at offset 8 (a valid per-line offset, line 4) is not rejected: the loop
dereferences `irq_regs[6]`, past the last line register. -/
theorem read_past_last_line :
    halucinator_irq_realize (halucinator_irq_instance 6) = six_lines ∧
    OFFSET_IRQ_N_REGS ≤ 8 ∧ 8 < OFFSET_IRQ_N_REGS + six_lines.num_irqs ∧
    six_lines.num_irqs < 8 - OFFSET_IRQ_N_REGS + 4 ∧
    halucinator_irqc_read six_lines 8 4 = .error (.outOfBounds 6) ∧
    (6 : Int) ≥ six_lines.num_irqs :=
  ⟨by decide, by decide, by decide, by decide, by decide, by decide⟩

/-- C8: on every well-formed controller, for every size and every offset that is
neither 0 nor a per-line offset, the read returns 0 and the write returns the
state it was given (status word, line registers and output as they were);
neither faults. -/
theorem invalid_offset_access (s : HalucinatorIRQState) (offset value size : Nat)
    (hs : WellFormed s) (h0 : offset ≠ 0)
    (hout : ¬ (OFFSET_IRQ_N_REGS ≤ offset ∧ offset < OFFSET_IRQ_N_REGS + s.num_irqs)) :
    halucinator_irqc_read s offset size = .ok 0 ∧
    halucinator_irqc_write s offset value size = .ok s :=
  ⟨read_invalid_ok s offset size hs.1 h0 hout, write_invalid_ok s offset value size hs.1 h0 hout⟩

/-- Witness of C8: offset 2 lies inside the status word, offset 8 is the first
offset past the four lines. -/
theorem invalid_offset_access_witness :
    (WellFormed four_lines ∧ 2 ≠ 0 ∧
      ¬ (OFFSET_IRQ_N_REGS ≤ 2 ∧ 2 < OFFSET_IRQ_N_REGS + four_lines.num_irqs) ∧
      halucinator_irqc_read four_lines 2 4 = .ok 0 ∧
      halucinator_irqc_write four_lines 2 0xFF 4 = .ok four_lines) ∧
    (halucinator_irqc_read four_lines 8 1 = .ok 0 ∧
      halucinator_irqc_write four_lines 8 0xFF 1 = .ok four_lines) :=
  ⟨⟨wellFormed_four_lines, by decide, by decide,
    invalid_offset_access four_lines 2 0xFF 4 wellFormed_four_lines (by decide) (by decide)⟩,
   invalid_offset_access four_lines 8 0xFF 1 wellFormed_four_lines (by decide) (by decide)⟩

/-- C9: on every well-formed controller, a write of any value `v` with any size
to offset 0 sets the status word to `v mod 2^32` and leaves every line register
as it was, and a following read of offset 0 returns `v mod 2^32`. -/
theorem status_word_round_trip (s : HalucinatorIRQState) (v size : Nat) (hs : WellFormed s) :
    ∃ t, halucinator_irqc_write s 0 v size = .ok t ∧ t.status_reg = v % 2 ^ 32 ∧
      t.irq_regs = s.irq_regs ∧ t.num_irqs = s.num_irqs ∧
      halucinator_irqc_read t 0 size = .ok (v % 2 ^ 32) := by
  obtain ⟨hmax, _, rs, hrs, hlen, _⟩ := hs
  refine ⟨_, write_status_ok s rs v size hmax hrs hlen, rfl, rfl, rfl, ?_⟩
  unfold halucinator_irqc_read
  rw [if_pos rfl]
  congr 1
  have h := and_mask32 (v % 2 ^ 32)
  have h2 : (v % 2 ^ 32 &&& 0xFFFFFFFF) < 2 ^ 32 :=
    Nat.lt_of_le_of_lt Nat.and_le_left (Nat.mod_lt _ (by norm_num))
  rw [Nat.mod_eq_of_lt h2] at h
  rw [show (qemu_set_irq { s with status_reg := v % 2 ^ 32 }
    (driven_level (v % 2 ^ 32) rs)).status_reg = v % 2 ^ 32 from rfl, h]
  omega

/-- Witness of C9: a 64-bit value with reserved and high bits set. -/
theorem status_word_round_trip_witness :
    WellFormed four_lines ∧
    ∃ t, halucinator_irqc_write four_lines 0 0x1FFFFFFFE 4 = .ok t ∧
      t.status_reg = 0x1FFFFFFFE % 2 ^ 32 ∧ t.irq_regs = four_lines.irq_regs ∧
      t.num_irqs = four_lines.num_irqs ∧
      halucinator_irqc_read t 0 4 = .ok (0x1FFFFFFFE % 2 ^ 32) :=
  ⟨wellFormed_four_lines, status_word_round_trip four_lines 0x1FFFFFFFE 4 wellFormed_four_lines⟩

/-- C10: on every well-formed controller, for every line index with
`0 ≤ line_index < num_irqs` and every level, `irq_handler` sets the ACTIVE bit of
the addressed line register when the level is non-zero and clears it when the
level is zero; every other bit of that register (ENABLED included), every other
line register, the status word and `num_irqs` are as they were. -/
theorem set_line_changes_only_active (s : HalucinatorIRQState) (line_index level : Int)
    (hs : WellFormed s) (h0 : 0 ≤ line_index) (h1 : line_index < s.num_irqs) :
    ∃ t rs rs1 r r1, irq_handler s line_index level = .ok t ∧
      s.irq_regs = some rs ∧ t.irq_regs = some rs1 ∧ rs1.length = rs.length ∧
      rs[line_index.toNat]? = some r ∧ rs1[line_index.toNat]? = some r1 ∧
      (level ≠ 0 → r1 &&& IRQ_N_ACTIVE = IRQ_N_ACTIVE) ∧
      (level = 0 → r1 &&& IRQ_N_ACTIVE = 0) ∧
      (∀ k, IRQ_N_ACTIVE.testBit k = false → r1.testBit k = r.testBit k) ∧
      r1 &&& IRQ_N_ENABLED = r &&& IRQ_N_ENABLED ∧
      (∀ j, j ≠ line_index.toNat → rs1[j]? = rs[j]?) ∧
      t.status_reg = s.status_reg ∧ t.num_irqs = s.num_irqs := by
  obtain ⟨hmax, _, rs, hrs, hlen, hbytes⟩ := hs
  lift line_index to Nat using h0 with n
  have hn : n < s.num_irqs := by omega
  obtain ⟨hget, hr⟩ := byte_at rs n hbytes (by omega)
  have hdis : IRQ_N_ACTIVE &&& IRQ_N_ENABLED = 0 := by decide
  have hm : IRQ_N_ACTIVE < 256 := by decide
  refine ⟨_, rs, _, rs.getD n 0,
    (if level ≠ 0 then (rs.getD n 0 ||| IRQ_N_ACTIVE) % 256
     else (rs.getD n 0 &&& not32 IRQ_N_ACTIVE) % 256),
    irq_handler_ok s rs n level hmax hrs hlen hn, hrs, rfl,
    by simp, by simpa using hget, ?_, ?_, ?_, ?_, ?_, ?_, rfl, rfl⟩
  · simp only [Int.toNat_ofNat]
    exact List.getElem?_set_self (by omega)
  · intro hl
    rw [if_pos hl, or_mask_byte _ _ hr hm, or_mask_and_self]
  · intro hl
    rw [if_neg (by simpa using hl), and_not_mask_byte _ _ hr, and_not_mask_and_self _ _ hr]
  · intro k hk
    by_cases hl : level ≠ 0
    · rw [if_pos hl, or_mask_byte _ _ hr hm, testBit_or_mask _ _ _ hk]
    · rw [if_neg hl, and_not_mask_byte _ _ hr, testBit_and_not_mask _ _ _ hr hk]
  · by_cases hl : level ≠ 0
    · rw [if_pos hl, or_mask_byte _ _ hr hm, or_mask_and_disjoint _ _ _ hdis]
    · rw [if_neg hl, and_not_mask_byte _ _ hr, and_not_mask_and_disjoint _ _ _ hr hdis]
  · intro j hj
    simp only [Int.toNat_ofNat] at hj
    exact List.getElem?_set_ne (Ne.symm hj)

/-- Witness of C10: line 0 of the four-line controller, active and enabled, is
lowered. -/
theorem set_line_changes_only_active_witness :
    WellFormed four_lines ∧ (0 : Int) ≤ 0 ∧ (0 : Int) < four_lines.num_irqs ∧
    ∃ t rs rs1 r r1, irq_handler four_lines 0 0 = .ok t ∧
      four_lines.irq_regs = some rs ∧ t.irq_regs = some rs1 ∧ rs1.length = rs.length ∧
      rs[(0 : Int).toNat]? = some r ∧ rs1[(0 : Int).toNat]? = some r1 ∧
      ((0 : Int) ≠ 0 → r1 &&& IRQ_N_ACTIVE = IRQ_N_ACTIVE) ∧
      ((0 : Int) = 0 → r1 &&& IRQ_N_ACTIVE = 0) ∧
      (∀ k, IRQ_N_ACTIVE.testBit k = false → r1.testBit k = r.testBit k) ∧
      r1 &&& IRQ_N_ENABLED = r &&& IRQ_N_ENABLED ∧
      (∀ j, j ≠ (0 : Int).toNat → rs1[j]? = rs[j]?) ∧
      t.status_reg = four_lines.status_reg ∧ t.num_irqs = four_lines.num_irqs :=
  ⟨wellFormed_four_lines, by decide, by decide,
   set_line_changes_only_active four_lines 0 0 wellFormed_four_lines (by decide) (by decide)⟩

/-- C11: on every well-formed controller (line storage allocated) and for every
index with `0 ≤ i < num_irqs`, the set setter sets and the clear setter clears
exactly the ACTIVE bit of line register `i`, the enable setter sets and the
disable setter clears exactly its ENABLED bit; every other bit of that register,
the flag of the other mask (the two masks are disjoint), every other line
register, the status word and `num_irqs` are as they were. -/
theorem debug_setters_change_one_flag (s : HalucinatorIRQState) (i : Int)
    (hs : WellFormed s) (h0 : 0 ≤ i) (h1 : i < s.num_irqs) :
    (∃ t, halucinator_irq_set_irq_setter s i = .ok t ∧
      changes_only_mask IRQ_N_ACTIVE true i.toNat s t) ∧
    (∃ t, halucinator_irq_clear_irq_setter s i = .ok t ∧
      changes_only_mask IRQ_N_ACTIVE false i.toNat s t) ∧
    (∃ t, halucinator_irq_enable_irq_setter s i = .ok t ∧
      changes_only_mask IRQ_N_ENABLED true i.toNat s t) ∧
    (∃ t, halucinator_irq_disable_irq_setter s i = .ok t ∧
      changes_only_mask IRQ_N_ENABLED false i.toNat s t) ∧
    IRQ_N_ACTIVE &&& IRQ_N_ENABLED = 0 ∧ IRQ_N_ENABLED &&& IRQ_N_ACTIVE = 0 := by
  lift i to Nat using h0 with n
  have hn : n < s.num_irqs := by omega
  simp only [Int.toNat_ofNat]
  refine ⟨?_, ?_, ?_, ?_, by decide, by decide⟩
  · obtain ⟨t, h, _, hc⟩ := irq_setter_or_mask IRQ_N_ACTIVE (by decide) s n hs hn
    exact ⟨t, h, hc⟩
  · obtain ⟨t, h, _, hc⟩ := irq_setter_and_not_mask IRQ_N_ACTIVE s n hs hn
    exact ⟨t, h, hc⟩
  · obtain ⟨t, h, _, hc⟩ := irq_setter_or_mask IRQ_N_ENABLED (by decide) s n hs hn
    exact ⟨t, h, hc⟩
  · obtain ⟨t, h, _, hc⟩ := irq_setter_and_not_mask IRQ_N_ENABLED s n hs hn
    exact ⟨t, h, hc⟩

/-- Witness of C11: line 3 of the four-line controller, which holds `0x80`. -/
theorem debug_setters_change_one_flag_witness :
    WellFormed four_lines ∧ (0 : Int) ≤ 3 ∧ (3 : Int) < four_lines.num_irqs ∧
    (∃ t, halucinator_irq_set_irq_setter four_lines 3 = .ok t ∧
      changes_only_mask IRQ_N_ACTIVE true (3 : Int).toNat four_lines t) ∧
    (∃ t, halucinator_irq_clear_irq_setter four_lines 3 = .ok t ∧
      changes_only_mask IRQ_N_ACTIVE false (3 : Int).toNat four_lines t) ∧
    (∃ t, halucinator_irq_enable_irq_setter four_lines 3 = .ok t ∧
      changes_only_mask IRQ_N_ENABLED true (3 : Int).toNat four_lines t) ∧
    (∃ t, halucinator_irq_disable_irq_setter four_lines 3 = .ok t ∧
      changes_only_mask IRQ_N_ENABLED false (3 : Int).toNat four_lines t) ∧
    IRQ_N_ACTIVE &&& IRQ_N_ENABLED = 0 ∧ IRQ_N_ENABLED &&& IRQ_N_ACTIVE = 0 :=
  ⟨wellFormed_four_lines, by decide, by decide,
   debug_setters_change_one_flag four_lines 3 wellFormed_four_lines (by decide) (by decide)⟩

/-- C12: on every controller, for every index that is negative or at least
`num_irqs`, and for every index when the line storage is not allocated, each of
the four debug setters returns the state it was given (status word, line
registers and output as they were) and does not fault. -/
theorem debug_setters_ignore_invalid_index (s : HalucinatorIRQState) (irq_num : Int)
    (h : s.irq_regs = none ∨ irq_num < 0 ∨ (s.num_irqs : Int) ≤ irq_num) :
    halucinator_irq_set_irq_setter s irq_num = .ok s ∧
    halucinator_irq_clear_irq_setter s irq_num = .ok s ∧
    halucinator_irq_enable_irq_setter s irq_num = .ok s ∧
    halucinator_irq_disable_irq_setter s irq_num = .ok s :=
  ⟨irq_setter_out_of_range _ s irq_num h, irq_setter_out_of_range _ s irq_num h,
   irq_setter_out_of_range _ s irq_num h, irq_setter_out_of_range _ s irq_num h⟩

/-- Witness of C12: index 100 on the four-line controller. -/
theorem debug_setters_ignore_invalid_index_witness :
    (four_lines.irq_regs = none ∨ (100 : Int) < 0 ∨ (four_lines.num_irqs : Int) ≤ 100) ∧
    halucinator_irq_set_irq_setter four_lines 100 = .ok four_lines ∧
    halucinator_irq_clear_irq_setter four_lines 100 = .ok four_lines ∧
    halucinator_irq_enable_irq_setter four_lines 100 = .ok four_lines ∧
    halucinator_irq_disable_irq_setter four_lines 100 = .ok four_lines :=
  ⟨by decide, debug_setters_ignore_invalid_index four_lines 100 (by decide)⟩

/-- C13 fails as stated: line 0 of the four-line controller has its ACTIVE bit
set; after the set setter and then the clear setter on line 0 the register
holds 2, so the ACTIVE bit is clear and not at the value it had before. -/
theorem set_then_clear_drops_active :
    four_lines.irq_regs = some [3, 0, 0, 0x80] ∧
    run four_lines [.debug_set 0, .debug_clear 0] =
      .ok { irq := [false, true, true, false, false], irq_regs := some [2, 0, 0, 0x80],
            num_irqs := 4, status_reg := 1 } ∧
    3 &&& IRQ_N_ACTIVE = IRQ_N_ACTIVE ∧ 2 &&& IRQ_N_ACTIVE = 0 ∧ IRQ_N_ACTIVE ≠ 0 :=
  ⟨rfl, by decide, by decide, by decide, by decide⟩

/-- C13, amended: on every well-formed controller and for every valid line `i`,
the set setter followed by the clear setter leaves the ACTIVE bit of line `i`
clear, which is its value before the set setter when it was clear then, and
leaves ENABLED as it was; symmetrically the enable setter followed by the
disable setter leaves the ENABLED bit clear, its prior value when it was clear,
and leaves ACTIVE as it was. -/
theorem set_clear_leaves_flag_clear (s : HalucinatorIRQState) (i : Int)
    (hs : WellFormed s) (h0 : 0 ≤ i) (h1 : i < s.num_irqs) :
    (∃ t1 t2 rs rs2 r r2, halucinator_irq_set_irq_setter s i = .ok t1 ∧
      halucinator_irq_clear_irq_setter t1 i = .ok t2 ∧
      s.irq_regs = some rs ∧ t2.irq_regs = some rs2 ∧
      rs[i.toNat]? = some r ∧ rs2[i.toNat]? = some r2 ∧
      r2 &&& IRQ_N_ACTIVE = 0 ∧
      (r &&& IRQ_N_ACTIVE = 0 → r2 &&& IRQ_N_ACTIVE = r &&& IRQ_N_ACTIVE) ∧
      r2 &&& IRQ_N_ENABLED = r &&& IRQ_N_ENABLED) ∧
    (∃ t1 t2 rs rs2 r r2, halucinator_irq_enable_irq_setter s i = .ok t1 ∧
      halucinator_irq_disable_irq_setter t1 i = .ok t2 ∧
      s.irq_regs = some rs ∧ t2.irq_regs = some rs2 ∧
      rs[i.toNat]? = some r ∧ rs2[i.toNat]? = some r2 ∧
      r2 &&& IRQ_N_ENABLED = 0 ∧
      (r &&& IRQ_N_ENABLED = 0 → r2 &&& IRQ_N_ENABLED = r &&& IRQ_N_ENABLED) ∧
      r2 &&& IRQ_N_ACTIVE = r &&& IRQ_N_ACTIVE) := by
  lift i to Nat using h0 with n
  have hn : n < s.num_irqs := by omega
  simp only [Int.toNat_ofNat]
  exact ⟨irq_setter_or_then_and_not IRQ_N_ACTIVE IRQ_N_ENABLED (by decide) (by decide) s n hs hn,
    irq_setter_or_then_and_not IRQ_N_ENABLED IRQ_N_ACTIVE (by decide) (by decide) s n hs hn⟩

/-- Witness of C13, amended: line 0 of the four-line controller. -/
theorem set_clear_leaves_flag_clear_witness :
    WellFormed four_lines ∧ (0 : Int) ≤ 0 ∧ (0 : Int) < four_lines.num_irqs ∧
    (∃ t1 t2 rs rs2 r r2, halucinator_irq_set_irq_setter four_lines 0 = .ok t1 ∧
      halucinator_irq_clear_irq_setter t1 0 = .ok t2 ∧
      four_lines.irq_regs = some rs ∧ t2.irq_regs = some rs2 ∧
      rs[(0 : Int).toNat]? = some r ∧ rs2[(0 : Int).toNat]? = some r2 ∧
      r2 &&& IRQ_N_ACTIVE = 0 ∧
      (r &&& IRQ_N_ACTIVE = 0 → r2 &&& IRQ_N_ACTIVE = r &&& IRQ_N_ACTIVE) ∧
      r2 &&& IRQ_N_ENABLED = r &&& IRQ_N_ENABLED) ∧
    (∃ t1 t2 rs rs2 r r2, halucinator_irq_enable_irq_setter four_lines 0 = .ok t1 ∧
      halucinator_irq_disable_irq_setter t1 0 = .ok t2 ∧
      four_lines.irq_regs = some rs ∧ t2.irq_regs = some rs2 ∧
      rs[(0 : Int).toNat]? = some r ∧ rs2[(0 : Int).toNat]? = some r2 ∧
      r2 &&& IRQ_N_ENABLED = 0 ∧
      (r &&& IRQ_N_ENABLED = 0 → r2 &&& IRQ_N_ENABLED = r &&& IRQ_N_ENABLED) ∧
      r2 &&& IRQ_N_ACTIVE = r &&& IRQ_N_ACTIVE) :=
  ⟨wellFormed_four_lines, by decide, by decide,
   set_clear_leaves_flag_clear four_lines 0 wellFormed_four_lines (by decide) (by decide)⟩

/-- C14 fails as stated: on the four-line controller the global enable is set and
line 0 is active and enabled; after the enable setter on line 1, the line input
raised on line 1 and then lowered on line 1, the output is still asserted. -/
theorem lowering_keeps_output_of_other_line :
    four_lines.status_reg &&& GLOBAL_IRQ_ENABLED ≠ 0 ∧
    run four_lines [.debug_enable 1, .set_line 1 1, .set_line 1 0] =
      .ok { irq := [true, true, true, true, false, false], irq_regs := some [3, 2, 0, 0x80],
            num_irqs := 4, status_reg := 1 } ∧
    irq_level { irq := [true, true, true, true, false, false], irq_regs := some [3, 2, 0, 0x80],
                num_irqs := 4, status_reg := 1 } = true :=
  ⟨by decide, by decide, by decide⟩

/-- C14, amended: on every well-formed controller whose global-enable bit is set
and for every valid line `i`, the enable setter on `i` followed by the line
input raised on `i` leaves the output asserted, and a following line input
lowered on `i` leaves the output asserted exactly when some other line is both
active and enabled: it is deasserted when no other line is. -/
theorem output_after_enable_raise_lower (s : HalucinatorIRQState) (i level : Int)
    (hs : WellFormed s) (hg : s.status_reg &&& GLOBAL_IRQ_ENABLED ≠ 0)
    (h0 : 0 ≤ i) (h1 : i < s.num_irqs) (hl : level ≠ 0) :
    ∃ t1 t2 t3, halucinator_irq_enable_irq_setter s i = .ok t1 ∧
      irq_handler t1 i level = .ok t2 ∧ irq_level t2 = true ∧
      irq_handler t2 i 0 = .ok t3 ∧
      (irq_level t3 = true ↔
        ∃ (j : Nat) (rs : List Nat) (r : Nat), j ≠ i.toNat ∧ j < s.num_irqs ∧
          s.irq_regs = some rs ∧ rs[j]? = some r ∧
          r &&& IRQ_N_ACTIVE ≠ 0 ∧ r &&& IRQ_N_ENABLED ≠ 0) := by
  lift i to Nat using h0 with n
  have hn : n < s.num_irqs := by omega
  have hs1 := hs
  obtain ⟨_, _, rs, hrs, hlen, _⟩ := hs1
  obtain ⟨t1, t2, t3, e1, e2, l2, e3, l3⟩ := raise_lower_after_enable_line s rs n level hs hrs hn hg hl
  refine ⟨t1, t2, t3, e1, e2, l2, e3, ?_⟩
  simp only [Int.toNat_ofNat]
  rw [l3]
  constructor
  · rintro ⟨j, r, hj, hget, ha, he⟩
    obtain ⟨hlt, _⟩ := List.getElem?_eq_some_iff.mp hget
    exact ⟨j, rs, r, hj, by omega, hrs, hget, ha, he⟩
  · rintro ⟨j, rs1, r, hj, _, hrs1, hget, ha, he⟩
    rw [hrs] at hrs1
    cases hrs1
    exact ⟨j, r, hj, hget, ha, he⟩

/-- Witness of C14, amended: line 1 of the four-line controller. -/
theorem output_after_enable_raise_lower_witness :
    WellFormed four_lines ∧ four_lines.status_reg &&& GLOBAL_IRQ_ENABLED ≠ 0 ∧
    (0 : Int) ≤ 1 ∧ (1 : Int) < four_lines.num_irqs ∧ (1 : Int) ≠ 0 ∧
    ∃ t1 t2 t3, halucinator_irq_enable_irq_setter four_lines 1 = .ok t1 ∧
      irq_handler t1 1 1 = .ok t2 ∧ irq_level t2 = true ∧
      irq_handler t2 1 0 = .ok t3 ∧
      (irq_level t3 = true ↔
        ∃ (j : Nat) (rs : List Nat) (r : Nat), j ≠ (1 : Int).toNat ∧ j < four_lines.num_irqs ∧
          four_lines.irq_regs = some rs ∧ rs[j]? = some r ∧
          r &&& IRQ_N_ACTIVE ≠ 0 ∧ r &&& IRQ_N_ENABLED ≠ 0) :=
  ⟨wellFormed_four_lines, by decide, by decide, by decide, by decide,
   output_after_enable_raise_lower four_lines 1 1 wellFormed_four_lines (by decide) (by decide)
     (by decide) (by decide)⟩

/-- C15: for every number of lines `N` that fits an `int` and every line `i < N`,
starting from the freshly realized controller: after the enable setter on `i`,
a write of GLOBAL_IRQ_ENABLED to offset 0 and the line input raised on `i`, the
output is asserted; after the line input lowered on `i` it is deasserted; after
the disable setter on `i` and the line input raised on `i` again it is still
deasserted. -/
theorem scenario_enable_raise_lower_disable (N i size : Nat) (hN : N ≤ INT_MAX) (hi : i < N) :
    ∃ t1 t2 t3 t4 t5 t6,
      halucinator_irq_enable_irq_setter (halucinator_irq_realize (halucinator_irq_instance N))
        (i : Int) = .ok t1 ∧
      halucinator_irqc_write t1 0 GLOBAL_IRQ_ENABLED size = .ok t2 ∧
      irq_handler t2 (i : Int) 1 = .ok t3 ∧ irq_level t3 = true ∧
      irq_handler t3 (i : Int) 0 = .ok t4 ∧ irq_level t4 = false ∧
      halucinator_irq_disable_irq_setter t4 (i : Int) = .ok t5 ∧
      irq_handler t5 (i : Int) 1 = .ok t6 ∧ irq_level t6 = false :=
  scenario_line N i size hN hi

/-- Witness of C15: four lines, line 2, as in the scenario of the spec. -/
theorem scenario_enable_raise_lower_disable_witness :
    4 ≤ INT_MAX ∧ 2 < 4 ∧
    ∃ t1 t2 t3 t4 t5 t6,
      halucinator_irq_enable_irq_setter (halucinator_irq_realize (halucinator_irq_instance 4))
        ((2 : Nat) : Int) = .ok t1 ∧
      halucinator_irqc_write t1 0 GLOBAL_IRQ_ENABLED 4 = .ok t2 ∧
      irq_handler t2 ((2 : Nat) : Int) 1 = .ok t3 ∧ irq_level t3 = true ∧
      irq_handler t3 ((2 : Nat) : Int) 0 = .ok t4 ∧ irq_level t4 = false ∧
      halucinator_irq_disable_irq_setter t4 ((2 : Nat) : Int) = .ok t5 ∧
      irq_handler t5 ((2 : Nat) : Int) 1 = .ok t6 ∧ irq_level t6 = false :=
  ⟨by decide, by decide, scenario_enable_raise_lower_disable 4 2 4 (by decide) (by decide)⟩

/-- C16: on every well-formed controller, for every level and every line index
`irq` in the range of an `int`, the assertion of `irq_handler` fails, ending the
call before any register or the output is touched, if and only if `irq` is
negative or at least `num_irqs`; for `0 ≤ irq < num_irqs` the call does not
fail. -/
theorem set_line_asserts_valid_index (s : HalucinatorIRQState) (irq level : Int)
    (hs : WellFormed s) (hlo : -(2 ^ 31) ≤ irq) (hhi : irq < 2 ^ 31) :
    (irq_handler s irq level = .error .assertion ↔ (irq < 0 ∨ (s.num_irqs : Int) ≤ irq)) ∧
    (0 ≤ irq → irq < s.num_irqs → ∃ t, irq_handler s irq level = .ok t) := by
  obtain ⟨hmax, _, rs, hrs, hlen, _⟩ := hs
  have hvalid : 0 ≤ irq → irq < s.num_irqs → ∃ t, irq_handler s irq level = .ok t := by
    intro h0 h1
    lift irq to Nat using h0 with n
    exact ⟨_, irq_handler_ok s rs n level hmax hrs hlen (by omega)⟩
  refine ⟨⟨?_, ?_⟩, hvalid⟩
  · intro herr
    by_contra hcon
    obtain ⟨t, ht⟩ := hvalid (by omega) (by omega)
    rw [ht] at herr
    cases herr
  · intro hinv
    have hnot : ¬ uint32 irq < s.num_irqs := by
      unfold INT_MAX at hmax
      unfold uint32
      omega
    unfold irq_handler
    rw [if_neg hnot]

/-- Witness of C16: index 4 on the four-line controller fails the assertion. -/
theorem set_line_asserts_valid_index_witness :
    WellFormed four_lines ∧ -(2 ^ 31) ≤ (4 : Int) ∧ (4 : Int) < 2 ^ 31 ∧
    irq_handler four_lines (-1) 1 = .error .assertion ∧
    (irq_handler four_lines 4 1 = .error .assertion ↔
      ((4 : Int) < 0 ∨ (four_lines.num_irqs : Int) ≤ 4)) ∧
    ((0 : Int) ≤ 4 → (4 : Int) < four_lines.num_irqs →
      ∃ t, irq_handler four_lines 4 1 = .ok t) :=
  ⟨wellFormed_four_lines, by decide, by decide, by decide,
   set_line_asserts_valid_index four_lines 4 1 wellFormed_four_lines (by decide) (by decide)⟩

/-- C17: a read has no side effect. For every controller, every offset (mapped or
not) and every size, the controller `halucinator_irqc_read` leaves is the one it
was called on: the status word, every line register, `num_irqs` and the output
are as they were; and the same read repeated right after it gives the same
result, the same value or, where the first read faults, the same fault. -/
theorem read_call_has_no_side_effect (s : HalucinatorIRQState) (offset size : Nat) :
    (halucinator_irqc_read_call s offset size).2 = s ∧
    (halucinator_irqc_read_call s offset size).2.status_reg = s.status_reg ∧
    (halucinator_irqc_read_call s offset size).2.irq_regs = s.irq_regs ∧
    (halucinator_irqc_read_call s offset size).2.num_irqs = s.num_irqs ∧
    (halucinator_irqc_read_call s offset size).2.irq = s.irq ∧
    irq_level (halucinator_irqc_read_call s offset size).2 = irq_level s ∧
    (halucinator_irqc_read_call (halucinator_irqc_read_call s offset size).2 offset size).1 =
      (halucinator_irqc_read_call s offset size).1 := by
  have h := read_call_state s offset size
  refine ⟨h, ?_, ?_, ?_, ?_, ?_, ?_⟩
  · rw [h]
  · rw [h]
  · rw [h]
  · rw [h]
  · rw [h]
  · rw [h]

/-- C18: on every well-formed controller `update_irq` drives the output exactly
once: to true exactly when some line below `num_irqs` has both ACTIVE and
ENABLED set, if the global-enable bit of the status word is set, and to false
otherwise; the status word, the line registers and `num_irqs` are as they
were. -/
theorem update_irq_postcondition (s : HalucinatorIRQState) (hs : WellFormed s) :
    ∃ t level, update_irq s = .ok t ∧ t.irq = level :: s.irq ∧
      (s.status_reg &&& GLOBAL_IRQ_ENABLED ≠ 0 →
        (level = true ↔
          ∃ (i : Nat) (rs : List Nat) (r : Nat), i < s.num_irqs ∧ s.irq_regs = some rs ∧
            rs[i]? = some r ∧ r &&& IRQ_N_ACTIVE ≠ 0 ∧ r &&& IRQ_N_ENABLED ≠ 0)) ∧
      (s.status_reg &&& GLOBAL_IRQ_ENABLED = 0 → level = false) ∧
      t.status_reg = s.status_reg ∧ t.irq_regs = s.irq_regs ∧ t.num_irqs = s.num_irqs := by
  obtain ⟨hmax, _, rs, hrs, hlen, _⟩ := hs
  refine ⟨_, driven_level s.status_reg rs, update_irq_ok s rs hrs hlen hmax, rfl, ?_, ?_,
    rfl, rfl, rfl⟩
  · intro hg
    rw [← aggregate_iff s rs hrs hlen]
    unfold aggregate
    constructor
    · rintro ⟨_, h⟩
      exact h
    · intro h
      exact ⟨hg, h⟩
  · intro hg
    unfold driven_level
    rw [hg]
    simp

/-- Witness of C18: the four-line controller. -/
theorem update_irq_postcondition_witness :
    WellFormed four_lines ∧
    ∃ t level, update_irq four_lines = .ok t ∧ t.irq = level :: four_lines.irq ∧
      (four_lines.status_reg &&& GLOBAL_IRQ_ENABLED ≠ 0 →
        (level = true ↔
          ∃ (i : Nat) (rs : List Nat) (r : Nat), i < four_lines.num_irqs ∧
            four_lines.irq_regs = some rs ∧
            rs[i]? = some r ∧ r &&& IRQ_N_ACTIVE ≠ 0 ∧ r &&& IRQ_N_ENABLED ≠ 0)) ∧
      (four_lines.status_reg &&& GLOBAL_IRQ_ENABLED = 0 → level = false) ∧
      t.status_reg = four_lines.status_reg ∧ t.irq_regs = four_lines.irq_regs ∧
      t.num_irqs = four_lines.num_irqs :=
  ⟨wellFormed_four_lines, update_irq_postcondition four_lines wellFormed_four_lines⟩

/-- C19: reserved bits do not influence the output. For two well-formed
controllers with the same `num_irqs` that agree on the global-enable bit of the
status word and on the ACTIVE and ENABLED bits of every line register,
`update_irq` drives the same level, whatever the other bits hold. -/
theorem reserved_bits_do_not_influence_output (s1 s2 : HalucinatorIRQState)
    (rs1 rs2 : List Nat) (h1 : WellFormed s1) (h2 : WellFormed s2)
    (hr1 : s1.irq_regs = some rs1) (hr2 : s2.irq_regs = some rs2)
    (hnum : s1.num_irqs = s2.num_irqs)
    (hst : s1.status_reg &&& GLOBAL_IRQ_ENABLED = s2.status_reg &&& GLOBAL_IRQ_ENABLED)
    (hlines : ∀ i, i < s1.num_irqs →
      rs1.getD i 0 &&& IRQ_N_ACTIVE = rs2.getD i 0 &&& IRQ_N_ACTIVE ∧
      rs1.getD i 0 &&& IRQ_N_ENABLED = rs2.getD i 0 &&& IRQ_N_ENABLED) :
    ∃ t1 t2 level, update_irq s1 = .ok t1 ∧ update_irq s2 = .ok t2 ∧
      t1.irq = level :: s1.irq ∧ t2.irq = level :: s2.irq := by
  obtain ⟨hmax1, _, rs1a, hrs1, hlen1, _⟩ := h1
  obtain ⟨hmax2, _, rs2a, hrs2, hlen2, _⟩ := h2
  rw [hr1] at hrs1
  cases hrs1
  rw [hr2] at hrs2
  cases hrs2
  refine ⟨_, _, driven_level s1.status_reg rs1, update_irq_ok s1 rs1 hr1 hlen1 hmax1,
    update_irq_ok s2 rs2 hr2 hlen2 hmax2, rfl, ?_⟩
  rw [driven_level_congr s1.status_reg s2.status_reg rs1 rs2 (by omega) hst
    (fun i hi => hlines i (by omega))]
  rfl

/-- Witness of C19: the four-line controller and its variant with other reserved
bits. -/
theorem reserved_bits_do_not_influence_output_witness :
    WellFormed four_lines ∧ WellFormed four_lines_reserved ∧
    four_lines.status_reg ≠ four_lines_reserved.status_reg ∧
    four_lines.irq_regs ≠ four_lines_reserved.irq_regs ∧
    ∃ t1 t2 level, update_irq four_lines = .ok t1 ∧ update_irq four_lines_reserved = .ok t2 ∧
      t1.irq = level :: four_lines.irq ∧ t2.irq = level :: four_lines_reserved.irq :=
  ⟨wellFormed_four_lines, wellFormed_four_lines_reserved, by decide, by decide,
   reserved_bits_do_not_influence_output four_lines four_lines_reserved
     [3, 0, 0, 0x80] [0xFF, 0xFC, 0x04, 0] wellFormed_four_lines wellFormed_four_lines_reserved
     rfl rfl rfl (by decide) (by decide)⟩

/-- C20: the line input and the debug setters agree on valid indices. On every
well-formed controller and for every index with `0 ≤ i < num_irqs`, the line
input with a non-zero level gives the state the set setter gives, and the line
input with level zero gives the state the clear setter gives: same registers,
same output. -/
theorem line_input_agrees_with_debug_setters (s : HalucinatorIRQState) (i level : Int)
    (hs : WellFormed s) (h0 : 0 ≤ i) (h1 : i < s.num_irqs) (hl : level ≠ 0) :
    (∃ t, irq_handler s i level = .ok t ∧ halucinator_irq_set_irq_setter s i = .ok t) ∧
    (∃ t, irq_handler s i 0 = .ok t ∧ halucinator_irq_clear_irq_setter s i = .ok t) := by
  lift i to Nat using h0 with n
  have hn : n < s.num_irqs := by omega
  obtain ⟨hmax, _, rs, hrs, hlen, _⟩ := hs
  refine ⟨⟨_, irq_handler_ok s rs n level hmax hrs hlen hn, ?_⟩,
    ⟨_, irq_handler_ok s rs n 0 hmax hrs hlen hn, ?_⟩⟩
  · rw [if_pos hl]
    exact irq_setter_ok _ s rs n hmax hrs hlen hn
  · rw [if_neg (by decide : ¬ (0 : Int) ≠ 0)]
    exact irq_setter_ok _ s rs n hmax hrs hlen hn

/-- Witness of C20: line 3 of the four-line controller. -/
theorem line_input_agrees_with_debug_setters_witness :
    WellFormed four_lines ∧ (0 : Int) ≤ 3 ∧ (3 : Int) < four_lines.num_irqs ∧ (1 : Int) ≠ 0 ∧
    (∃ t, irq_handler four_lines 3 1 = .ok t ∧
      halucinator_irq_set_irq_setter four_lines 3 = .ok t) ∧
    (∃ t, irq_handler four_lines 3 0 = .ok t ∧
      halucinator_irq_clear_irq_setter four_lines 3 = .ok t) :=
  ⟨wellFormed_four_lines, by decide, by decide, by decide,
   line_input_agrees_with_debug_setters four_lines 3 1 wellFormed_four_lines (by decide)
     (by decide) (by decide)⟩

end HalucinatorIRQ
